import Mathlib

/-!
Shallow embedding of the vehicle counting core of the repository:
`backend/vehicle_counting/line_counter.py` and
`backend/vehicle_counting/simple_tracker.py`.

Modelling choices:
* Python floats are modelled as exact rationals (`ℚ`); the claims under
  study are order/branching properties, not rounding properties.
* Python dicts (insertion ordered) are association lists with the
  dict write discipline: overwrite in place, append new keys at the end.
* The Python set of counted track ids is a duplicate-free list (elements
  are only appended under a membership guard).
* The tracker's source computes Euclidean distances with `** 0.5` and only
  ever compares them; since `sqrt` is strictly monotone on nonnegative
  inputs, the embedding compares squared distances against squared
  thresholds (`sqrt d < sqrt b ↔ d < b`, and for `0 ≤ d`,
  `sqrt d ≤ t ↔ 0 ≤ t ∧ d ≤ t ^ 2`).
-/

namespace VC

/-- Python dict read `d.get(k)`: first binding of `k`, `none` if absent. -/
def dictGet {κ α : Type} [DecidableEq κ] (k : κ) : List (κ × α) → Option α
  | [] => none
  | p :: t => if p.1 = k then some p.2 else dictGet k t

/-- Python dict write `d[k] = v`: overwrite in place when the key is
present, otherwise append at the end (insertion order). -/
def dictSet {κ α : Type} [DecidableEq κ] (k : κ) (v : α) : List (κ × α) → List (κ × α)
  | [] => [(k, v)]
  | p :: t => if p.1 = k then (k, v) :: t else p :: dictSet k v t

/-- `VehicleCategory` enum from line_counter.py. -/
inductive VehicleCategory
  | car
  | bike
  | bus
  | truck
deriving DecidableEq

/-- `COCO_CLASS_TO_CATEGORY` table from line_counter.py. -/
def COCO_CLASS_TO_CATEGORY : String → Option VehicleCategory
  | "car" => some .car
  | "bus" => some .bus
  | "truck" => some .truck
  | "motorcycle" => some .bike
  | "bicycle" => some .bike
  | _ => none

/-- `Line` dataclass: a horizontal line `y = y_px`. -/
structure Line where
  y_px : ℚ
deriving DecidableEq

/-- `TrackObservation` dataclass from line_counter.py. -/
structure TrackObservation where
  track_id : Nat
  center_xy : ℚ × ℚ
  coco_class_name : String
  is_confirmed : Bool := true
deriving DecidableEq

/-- `Counts` dataclass from line_counter.py; the four per-category dicts
are total functions on the closed enum (the source pre-populates all
four keys with 0). -/
structure Counts where
  total : Nat := 0
  by_category : VehicleCategory → Nat := fun _ => 0
  total_in : Nat := 0
  total_out : Nat := 0
  by_category_in : VehicleCategory → Nat := fun _ => 0
  by_category_out : VehicleCategory → Nat := fun _ => 0

/-- State of a `LineCrossingCounter` instance. -/
structure LineCrossingCounter where
  line : Line
  invert_directions : Bool
  margin_px : ℚ
  is_above_by_track : List (Nat × Bool)
  counted_track_ids : List Nat
  category_votes : List (Nat × List (VehicleCategory × Nat))
  counts : Counts

/-- `LineCrossingCounter.__init__`: clamps the margin at 0 (the `if` is
`max(0.0, line_margin_px)` spelled out), starts with empty maps and zero
counts. -/
def LineCrossingCounter.init (line : Line) (invert_directions : Bool)
    (line_margin_px : ℚ) : LineCrossingCounter :=
  { line := line
    invert_directions := invert_directions
    margin_px := if line_margin_px ≤ 0 then 0 else line_margin_px
    is_above_by_track := []
    counted_track_ids := []
    category_votes := []
    counts := {} }

/-- `LineCrossingCounter._vote_category`: look the label up in the table;
if mapped, bump that category's vote count for the track (creating the
track's vote dict on demand, as `setdefault` does) and return the
category; if unmapped, change nothing and return `none`. -/
def LineCrossingCounter.voteCategory (c : LineCrossingCounter) (track_id : Nat)
    (coco_class_name : String) : LineCrossingCounter × Option VehicleCategory :=
  match COCO_CLASS_TO_CATEGORY coco_class_name with
  | none => (c, none)
  | some category =>
      let votes := (dictGet track_id c.category_votes).getD []
      let votes := dictSet category ((dictGet category votes).getD 0 + 1) votes
      ({ c with category_votes := dictSet track_id votes c.category_votes },
       some category)

/-- Python `max(votes.items(), key=lambda kv: kv[1])[0]` starting from the
accumulator `(k, v)`: the current best is replaced only when a later
count is strictly greater, so the first key attaining the maximum wins. -/
def maxVote (k : VehicleCategory) (v : Nat) :
    List (VehicleCategory × Nat) → VehicleCategory
  | [] => k
  | p :: t => if p.2 > v then maxVote p.1 p.2 t else maxVote k v t

/-- `LineCrossingCounter._best_category`: `none` when the track has no
vote dict or an empty one, else the argmax of the votes with ties broken
by insertion order. -/
def LineCrossingCounter.bestCategory (c : LineCrossingCounter) (track_id : Nat) :
    Option VehicleCategory :=
  match dictGet track_id c.category_votes with
  | none => none
  | some [] => none
  | some (p :: t) => some (maxVote p.1 p.2 t)

/-- `LineCrossingCounter._get_current_state`: `some true` = above,
`some false` = below, `none` = inside the margin band. -/
def LineCrossingCounter.getCurrentState (c : LineCrossingCounter) (y : ℚ) :
    Option Bool :=
  if y < c.line.y_px - c.margin_px then some true
  else if y > c.line.y_px + c.margin_px then some false
  else none

/-- Body of the per-observation loop of `LineCrossingCounter.update`. -/
def LineCrossingCounter.updateObs (c : LineCrossingCounter)
    (obs : TrackObservation) : LineCrossingCounter :=
  let c := (c.voteCategory obs.track_id obs.coco_class_name).1
  let y := obs.center_xy.2
  match c.getCurrentState y with
  | none => c
  | some current_is_above =>
      let prev_is_above := dictGet obs.track_id c.is_above_by_track
      let side := dictSet obs.track_id current_is_above c.is_above_by_track
      let c := { c with is_above_by_track := side }
      match prev_is_above with
      | none => c
      | some prev =>
          if prev = current_is_above then c
          else if obs.track_id ∈ c.counted_track_ids then c
          else
            match c.bestCategory obs.track_id with
            | none => c
            | some category =>
                let c := { c with
                  counted_track_ids := c.counted_track_ids ++ [obs.track_id]
                  counts := { c.counts with
                    total := c.counts.total + 1
                    by_category := fun k =>
                      if k = category then c.counts.by_category k + 1
                      else c.counts.by_category k } }
                let moved_in := prev && !current_is_above
                let moved_in :=
                  if c.invert_directions then !moved_in else moved_in
                if moved_in then
                  { c with counts := { c.counts with
                      total_in := c.counts.total_in + 1
                      by_category_in := fun k =>
                        if k = category then c.counts.by_category_in k + 1
                        else c.counts.by_category_in k } }
                else
                  { c with counts := { c.counts with
                      total_out := c.counts.total_out + 1
                      by_category_out := fun k =>
                        if k = category then c.counts.by_category_out k + 1
                        else c.counts.by_category_out k } }

/-- `LineCrossingCounter.update`: fold the loop body over the frame's
observations in order. -/
def LineCrossingCounter.update (c : LineCrossingCounter)
    (observations : List TrackObservation) : LineCrossingCounter :=
  observations.foldl LineCrossingCounter.updateObs c

/-- `Detection` dataclass from simple_tracker.py. -/
structure Detection where
  xyxy : ℚ × ℚ × ℚ × ℚ
  center_xy : ℚ × ℚ
  class_name : String
  conf : ℚ
deriving DecidableEq

/-- `Track` dataclass from simple_tracker.py. -/
structure Track where
  track_id : Nat
  center_xy : ℚ × ℚ
  class_name : String
  last_seen_frame : Int
deriving DecidableEq

/-- State of a `SimpleTracker` instance. -/
structure SimpleTracker where
  next_id : Nat
  tracks : List (Nat × Track)
  max_age_frames : Int
  max_match_distance_px : ℚ
deriving DecidableEq

/-- `SimpleTracker.__init__`. -/
def SimpleTracker.init (max_age_frames : Int) (max_match_distance_px : ℚ) :
    SimpleTracker :=
  { next_id := 1
    tracks := []
    max_age_frames := max_age_frames
    max_match_distance_px := max_match_distance_px }

/-- Squared Euclidean distance (`SimpleTracker._dist` before the final
`** 0.5`; every use of the source value is a comparison, preserved under
squaring). -/
def distSq (a b : ℚ × ℚ) : ℚ :=
  (a.1 - b.1) * (a.1 - b.1) + (a.2 - b.2) * (a.2 - b.2)

/-- The source initialises `best_dist = 1e18`; squared. -/
def hugeDistSq : ℚ := 10 ^ 36

/-- Inner loop of the greedy match: scan the live tracks in dict order,
skipping used ids and class mismatches, keeping the strictly nearest
candidate (squared distances). -/
def findBestAux (det : Detection) (used : List Nat) :
    List (Nat × Track) → Option Nat → ℚ → Option Nat × ℚ
  | [], best_tid, best_dsq => (best_tid, best_dsq)
  | (tid, trk) :: rest, best_tid, best_dsq =>
      if tid ∈ used then findBestAux det used rest best_tid best_dsq
      else if trk.class_name ≠ det.class_name then
        findBestAux det used rest best_tid best_dsq
      else
        let d := distSq trk.center_xy det.center_xy
        if d < best_dsq then findBestAux det used rest (some tid) d
        else findBestAux det used rest best_tid best_dsq

/-- The `else` branch of the per-detection loop: allocate a fresh id,
insert a new track, record the assignment. -/
def SimpleTracker.newTrack (frame_idx : Int) (s : SimpleTracker)
    (assignments : List (Nat × Detection)) (used : List Nat) (det : Detection) :
    SimpleTracker × List (Nat × Detection) × List Nat :=
  let tid := s.next_id
  let s := { s with
    next_id := s.next_id + 1
    tracks := dictSet tid
      { track_id := tid
        center_xy := det.center_xy
        class_name := det.class_name
        last_seen_frame := frame_idx } s.tracks }
  (s, assignments ++ [(tid, det)], used ++ [tid])

/-- Body of the per-detection loop of `SimpleTracker.update`: find the
nearest unused same-class track; if it is within the threshold
(`sqrt dsq ≤ thr ↔ 0 ≤ thr ∧ dsq ≤ thr ^ 2`), update it in place;
otherwise create a new track. -/
def SimpleTracker.stepDet (frame_idx : Int)
    (acc : SimpleTracker × List (Nat × Detection) × List Nat) (det : Detection) :
    SimpleTracker × List (Nat × Detection) × List Nat :=
  let s := acc.1
  let assignments := acc.2.1
  let used := acc.2.2
  let best := findBestAux det used s.tracks none hugeDistSq
  match best.1 with
  | some tid =>
      if 0 ≤ s.max_match_distance_px ∧ best.2 ≤ s.max_match_distance_px ^ 2 then
        let s := { s with tracks := s.tracks.map (fun p =>
          if p.1 = tid then
            (p.1, { p.2 with center_xy := det.center_xy,
                             last_seen_frame := frame_idx })
          else p) }
        (s, assignments ++ [(tid, det)], used ++ [tid])
      else
        SimpleTracker.newTrack frame_idx s assignments used det
  | none => SimpleTracker.newTrack frame_idx s assignments used det

/-- `SimpleTracker.update`: first expire tracks whose age exceeds
`max_age_frames` (keep those with `frame_idx - last_seen ≤ max_age`),
then process the detections in order. -/
def SimpleTracker.update (s : SimpleTracker) (detections : List Detection)
    (frame_idx : Int) : SimpleTracker × List (Nat × Detection) :=
  let live := s.tracks.filter
    (fun p => decide (frame_idx - p.2.last_seen_frame ≤ s.max_age_frames))
  let s := { s with tracks := live }
  let r := detections.foldl (SimpleTracker.stepDet frame_idx) (s, [], [])
  (r.1, r.2.1)

/-! ### Proof-layer abbreviations for the counter's branches -/

/-- The counter state after the unconditional vote step of the loop body. -/
def voteState (c : LineCrossingCounter) (obs : TrackObservation) :
    LineCrossingCounter :=
  (c.voteCategory obs.track_id obs.coco_class_name).1

/-- The counter state after recording side `b` for track `t`. -/
def sideUpd (c : LineCrossingCounter) (t : Nat) (b : Bool) : LineCrossingCounter :=
  { c with is_above_by_track := dictSet t b c.is_above_by_track }

/-- The counter bump performed when a crossing is counted. -/
def bumpCounts (cnt : Counts) (category : VehicleCategory) (moved_in : Bool) :
    Counts :=
  { total := cnt.total + 1
    by_category := fun k =>
      if k = category then cnt.by_category k + 1 else cnt.by_category k
    total_in := if moved_in then cnt.total_in + 1 else cnt.total_in
    total_out := if moved_in then cnt.total_out else cnt.total_out + 1
    by_category_in := fun k =>
      if moved_in = true ∧ k = category then cnt.by_category_in k + 1
      else cnt.by_category_in k
    by_category_out := fun k =>
      if moved_in = false ∧ k = category then cnt.by_category_out k + 1
      else cnt.by_category_out k }

/-- The full effect of counting track `t` in category `cat` with direction
flag `moved_in`. -/
def applyCount (c : LineCrossingCounter) (t : Nat) (cat : VehicleCategory)
    (moved_in : Bool) : LineCrossingCounter :=
  { c with
    counted_track_ids := c.counted_track_ids ++ [t]
    counts := bumpCounts c.counts cat moved_in }

/-! ### dict lemmas -/

theorem dictGet_dictSet_self {κ α : Type} [DecidableEq κ] (k : κ) (v : α)
    (l : List (κ × α)) : dictGet k (dictSet k v l) = some v := by
  induction l with
  | nil => simp [dictGet, dictSet]
  | cons p t ih =>
      by_cases h : p.1 = k
      · simp [dictGet, dictSet, h]
      · simp [dictGet, dictSet, h, ih]

theorem dictGet_dictSet_ne {κ α : Type} [DecidableEq κ] (k k' : κ) (v : α)
    (l : List (κ × α)) (h : k' ≠ k) :
    dictGet k' (dictSet k v l) = dictGet k' l := by
  induction l with
  | nil => simp [dictGet, dictSet, Ne.symm h]
  | cons p t ih =>
      by_cases hp : p.1 = k
      · subst hp
        simp [dictGet, dictSet, h, Ne.symm h]
      · simp only [dictSet, if_neg hp]
        by_cases hp' : p.1 = k'
        · simp [dictGet, hp']
        · simp [dictGet, hp', ih]

/-! ### voteCategory preserves everything except the vote map -/

theorem voteCategory_counts (c : LineCrossingCounter) (t : Nat) (n : String) :
    ((c.voteCategory t n).1).counts = c.counts := by
  unfold LineCrossingCounter.voteCategory
  split <;> rfl

theorem voteCategory_counted (c : LineCrossingCounter) (t : Nat) (n : String) :
    ((c.voteCategory t n).1).counted_track_ids = c.counted_track_ids := by
  unfold LineCrossingCounter.voteCategory
  split <;> rfl

theorem voteCategory_side (c : LineCrossingCounter) (t : Nat) (n : String) :
    ((c.voteCategory t n).1).is_above_by_track = c.is_above_by_track := by
  unfold LineCrossingCounter.voteCategory
  split <;> rfl

theorem voteCategory_line (c : LineCrossingCounter) (t : Nat) (n : String) :
    ((c.voteCategory t n).1).line = c.line := by
  unfold LineCrossingCounter.voteCategory
  split <;> rfl

theorem voteCategory_margin (c : LineCrossingCounter) (t : Nat) (n : String) :
    ((c.voteCategory t n).1).margin_px = c.margin_px := by
  unfold LineCrossingCounter.voteCategory
  split <;> rfl

theorem voteCategory_invert (c : LineCrossingCounter) (t : Nat) (n : String) :
    ((c.voteCategory t n).1).invert_directions = c.invert_directions := by
  unfold LineCrossingCounter.voteCategory
  split <;> rfl

theorem voteCategory_unmapped (c : LineCrossingCounter) (t : Nat) (n : String)
    (h : COCO_CLASS_TO_CATEGORY n = none) : (c.voteCategory t n).1 = c := by
  unfold LineCrossingCounter.voteCategory
  rw [h]

theorem getCurrentState_voteState (c : LineCrossingCounter)
    (obs : TrackObservation) (y : ℚ) :
    (voteState c obs).getCurrentState y = c.getCurrentState y := by
  unfold LineCrossingCounter.getCurrentState
  rw [voteState, voteCategory_line, voteCategory_margin]

theorem bestCategory_sideUpd (c : LineCrossingCounter) (t : Nat) (b : Bool)
    (t' : Nat) : (sideUpd c t b).bestCategory t' = c.bestCategory t' := rfl

theorem side_voteState (c : LineCrossingCounter) (obs : TrackObservation) :
    (voteState c obs).is_above_by_track = c.is_above_by_track :=
  voteCategory_side c obs.track_id obs.coco_class_name

theorem counted_voteState (c : LineCrossingCounter) (obs : TrackObservation) :
    (voteState c obs).counted_track_ids = c.counted_track_ids :=
  voteCategory_counted c obs.track_id obs.coco_class_name

theorem counts_voteState (c : LineCrossingCounter) (obs : TrackObservation) :
    (voteState c obs).counts = c.counts :=
  voteCategory_counts c obs.track_id obs.coco_class_name

theorem invert_voteState (c : LineCrossingCounter) (obs : TrackObservation) :
    (voteState c obs).invert_directions = c.invert_directions :=
  voteCategory_invert c obs.track_id obs.coco_class_name

/-! ### Branch characterization of the loop body -/

theorem updateObs_margin (c : LineCrossingCounter) (obs : TrackObservation)
    (h : c.getCurrentState obs.center_xy.2 = none) :
    c.updateObs obs = voteState c obs := by
  have hv : (voteState c obs).getCurrentState obs.center_xy.2 = none := by
    rw [getCurrentState_voteState, h]
  unfold LineCrossingCounter.updateObs
  simp only [show (c.voteCategory obs.track_id obs.coco_class_name).1
      = voteState c obs from rfl, hv]

theorem updateObs_first (c : LineCrossingCounter) (obs : TrackObservation)
    (b : Bool) (h : c.getCurrentState obs.center_xy.2 = some b)
    (hp : dictGet obs.track_id c.is_above_by_track = none) :
    c.updateObs obs = sideUpd (voteState c obs) obs.track_id b := by
  have hv : (voteState c obs).getCurrentState obs.center_xy.2 = some b := by
    rw [getCurrentState_voteState, h]
  have hp' : dictGet obs.track_id (voteState c obs).is_above_by_track = none := by
    rw [side_voteState, hp]
  unfold LineCrossingCounter.updateObs
  simp only [show (c.voteCategory obs.track_id obs.coco_class_name).1
      = voteState c obs from rfl, hv, hp']
  rfl

theorem updateObs_same (c : LineCrossingCounter) (obs : TrackObservation)
    (b : Bool) (h : c.getCurrentState obs.center_xy.2 = some b)
    (hp : dictGet obs.track_id c.is_above_by_track = some b) :
    c.updateObs obs = sideUpd (voteState c obs) obs.track_id b := by
  have hv : (voteState c obs).getCurrentState obs.center_xy.2 = some b := by
    rw [getCurrentState_voteState, h]
  have hp' : dictGet obs.track_id (voteState c obs).is_above_by_track = some b := by
    rw [side_voteState, hp]
  unfold LineCrossingCounter.updateObs
  simp only [show (c.voteCategory obs.track_id obs.coco_class_name).1
      = voteState c obs from rfl, hv, hp', if_pos rfl]
  rfl

theorem updateObs_counted (c : LineCrossingCounter) (obs : TrackObservation)
    (p b : Bool) (h : c.getCurrentState obs.center_xy.2 = some b)
    (hp : dictGet obs.track_id c.is_above_by_track = some p) (hpb : p ≠ b)
    (hm : obs.track_id ∈ c.counted_track_ids) :
    c.updateObs obs = sideUpd (voteState c obs) obs.track_id b := by
  have hv : (voteState c obs).getCurrentState obs.center_xy.2 = some b := by
    rw [getCurrentState_voteState, h]
  have hp' : dictGet obs.track_id (voteState c obs).is_above_by_track = some p := by
    rw [side_voteState, hp]
  have hm' : obs.track_id ∈ (voteState c obs).counted_track_ids := by
    rw [counted_voteState]; exact hm
  unfold LineCrossingCounter.updateObs
  simp only [show (c.voteCategory obs.track_id obs.coco_class_name).1
      = voteState c obs from rfl, hv, hp', if_neg hpb]
  rw [if_pos hm']
  rfl

theorem updateObs_novote (c : LineCrossingCounter) (obs : TrackObservation)
    (p b : Bool) (h : c.getCurrentState obs.center_xy.2 = some b)
    (hp : dictGet obs.track_id c.is_above_by_track = some p) (hpb : p ≠ b)
    (hm : obs.track_id ∉ c.counted_track_ids)
    (hb : (voteState c obs).bestCategory obs.track_id = none) :
    c.updateObs obs = sideUpd (voteState c obs) obs.track_id b := by
  have hv : (voteState c obs).getCurrentState obs.center_xy.2 = some b := by
    rw [getCurrentState_voteState, h]
  have hp' : dictGet obs.track_id (voteState c obs).is_above_by_track = some p := by
    rw [side_voteState, hp]
  have hm' : obs.track_id ∉ (voteState c obs).counted_track_ids := by
    rw [counted_voteState]; exact hm
  unfold LineCrossingCounter.updateObs
  simp only [show (c.voteCategory obs.track_id obs.coco_class_name).1
      = voteState c obs from rfl, hv, hp', if_neg hpb, if_neg hm']
  split
  · rfl
  · next cat2 heq =>
      exfalso
      have h2 : (voteState c obs).bestCategory obs.track_id = some cat2 := heq
      rw [hb] at h2
      exact Option.noConfusion h2

theorem updateObs_cross (c : LineCrossingCounter) (obs : TrackObservation)
    (p b : Bool) (cat : VehicleCategory)
    (h : c.getCurrentState obs.center_xy.2 = some b)
    (hp : dictGet obs.track_id c.is_above_by_track = some p) (hpb : p ≠ b)
    (hm : obs.track_id ∉ c.counted_track_ids)
    (hb : (voteState c obs).bestCategory obs.track_id = some cat) :
    c.updateObs obs = applyCount (sideUpd (voteState c obs) obs.track_id b)
      obs.track_id cat (xor (p && !b) c.invert_directions) := by
  have hv : (voteState c obs).getCurrentState obs.center_xy.2 = some b := by
    rw [getCurrentState_voteState, h]
  have hp' : dictGet obs.track_id (voteState c obs).is_above_by_track = some p := by
    rw [side_voteState, hp]
  have hm' : obs.track_id ∉ (voteState c obs).counted_track_ids := by
    rw [counted_voteState]; exact hm
  unfold LineCrossingCounter.updateObs
  simp only [show (c.voteCategory obs.track_id obs.coco_class_name).1
      = voteState c obs from rfl, hv, hp', if_neg hpb, if_neg hm']
  split
  · next heq =>
      exfalso
      have h2 : (voteState c obs).bestCategory obs.track_id = none := heq
      rw [hb] at h2
      exact Option.noConfusion h2
  · next cat2 heq =>
      have h2 : (voteState c obs).bestCategory obs.track_id = some cat2 := heq
      rw [hb] at h2
      cases Option.some.inj h2
      simp only [invert_voteState]
      cases p <;> cases b
      · exact absurd rfl hpb
      · cases hI : c.invert_directions <;>
          simp [applyCount, bumpCounts, sideUpd, invert_voteState, hI]
      · cases hI : c.invert_directions <;>
          simp [applyCount, bumpCounts, sideUpd, invert_voteState, hI]
      · exact absurd rfl hpb

theorem counts_sideUpd (c : LineCrossingCounter) (t : Nat) (b : Bool) :
    (sideUpd c t b).counts = c.counts := rfl

theorem counted_sideUpd (c : LineCrossingCounter) (t : Nat) (b : Bool) :
    (sideUpd c t b).counted_track_ids = c.counted_track_ids := rfl

theorem counts_applyCount (c : LineCrossingCounter) (t : Nat)
    (cat : VehicleCategory) (mi : Bool) :
    (applyCount c t cat mi).counts = bumpCounts c.counts cat mi := rfl

theorem counted_applyCount (c : LineCrossingCounter) (t : Nat)
    (cat : VehicleCategory) (mi : Bool) :
    (applyCount c t cat mi).counted_track_ids = c.counted_track_ids ++ [t] := rfl

theorem update_nil (c : LineCrossingCounter) : c.update [] = c := rfl

theorem update_cons (c : LineCrossingCounter) (o : TrackObservation)
    (l : List TrackObservation) : c.update (o :: l) = (c.updateObs o).update l := rfl

theorem update_append (c : LineCrossingCounter) (l1 l2 : List TrackObservation) :
    c.update (l1 ++ l2) = (c.update l1).update l2 := by
  unfold LineCrossingCounter.update
  exact List.foldl_append _ _ l1 l2

/-- Each loop-body step either leaves counts and counted set untouched, or
counts a not-yet-counted track: one `bumpCounts` and one appended id. -/
theorem updateObs_dichotomy (c : LineCrossingCounter) (obs : TrackObservation) :
    ((c.updateObs obs).counts = c.counts ∧
      (c.updateObs obs).counted_track_ids = c.counted_track_ids) ∨
    (obs.track_id ∉ c.counted_track_ids ∧
      (c.updateObs obs).counted_track_ids = c.counted_track_ids ++ [obs.track_id] ∧
      ∃ cat mi, (c.updateObs obs).counts = bumpCounts c.counts cat mi) := by
  cases hst : c.getCurrentState obs.center_xy.2 with
  | none =>
      left
      rw [updateObs_margin c obs hst]
      exact ⟨counts_voteState c obs, counted_voteState c obs⟩
  | some b =>
      cases hpv : dictGet obs.track_id c.is_above_by_track with
      | none =>
          left
          rw [updateObs_first c obs b hst hpv, counts_sideUpd, counted_sideUpd]
          exact ⟨counts_voteState c obs, counted_voteState c obs⟩
      | some p =>
          by_cases hpb : p = b
          · left
            subst hpb
            rw [updateObs_same c obs p hst hpv, counts_sideUpd, counted_sideUpd]
            exact ⟨counts_voteState c obs, counted_voteState c obs⟩
          · by_cases hmem : obs.track_id ∈ c.counted_track_ids
            · left
              rw [updateObs_counted c obs p b hst hpv hpb hmem,
                counts_sideUpd, counted_sideUpd]
              exact ⟨counts_voteState c obs, counted_voteState c obs⟩
            · cases hbc : (voteState c obs).bestCategory obs.track_id with
              | none =>
                  left
                  rw [updateObs_novote c obs p b hst hpv hpb hmem hbc,
                    counts_sideUpd, counted_sideUpd]
                  exact ⟨counts_voteState c obs, counted_voteState c obs⟩
              | some cat =>
                  right
                  refine ⟨hmem, ?_, cat, xor (p && !b) c.invert_directions, ?_⟩
                  · rw [updateObs_cross c obs p b cat hst hpv hpb hmem hbc,
                      counted_applyCount, counted_sideUpd, counted_voteState]
                  · rw [updateObs_cross c obs p b cat hst hpv hpb hmem hbc,
                      counts_applyCount, counts_sideUpd, counts_voteState]

/-- The counted set only grows along a step. -/
theorem counted_mono_obs (c : LineCrossingCounter) (obs : TrackObservation)
    (t : Nat) (h : t ∈ c.counted_track_ids) :
    t ∈ (c.updateObs obs).counted_track_ids := by
  rcases updateObs_dichotomy c obs with ⟨-, h2⟩ | ⟨-, h2, -⟩ <;> rw [h2]
  · exact h
  · exact List.mem_append_left _ h

/-- The counted set only grows along a whole run. -/
theorem counted_mono (c : LineCrossingCounter) (l : List TrackObservation)
    (t : Nat) (h : t ∈ c.counted_track_ids) :
    t ∈ (c.update l).counted_track_ids := by
  induction l generalizing c with
  | nil => exact h
  | cons o tl ih =>
      rw [update_cons]
      exact ih _ (counted_mono_obs c o t h)

/-- A step on an already-counted identity never changes counts or the
counted set. -/
theorem updateObs_frozen (c : LineCrossingCounter) (obs : TrackObservation)
    (h : obs.track_id ∈ c.counted_track_ids) :
    (c.updateObs obs).counts = c.counts ∧
      (c.updateObs obs).counted_track_ids = c.counted_track_ids := by
  rcases updateObs_dichotomy c obs with hcase | ⟨hmem, -, -⟩
  · exact hcase
  · exact absurd h hmem

/-- Pointwise order on the aggregate counters. -/
def countsLE (a b : Counts) : Prop :=
  a.total ≤ b.total ∧ a.total_in ≤ b.total_in ∧ a.total_out ≤ b.total_out ∧
  (∀ k, a.by_category k ≤ b.by_category k) ∧
  (∀ k, a.by_category_in k ≤ b.by_category_in k) ∧
  (∀ k, a.by_category_out k ≤ b.by_category_out k)

theorem countsLE_refl (a : Counts) : countsLE a a :=
  ⟨le_rfl, le_rfl, le_rfl, fun _ => le_rfl, fun _ => le_rfl, fun _ => le_rfl⟩

theorem countsLE_trans {a b c : Counts} (h1 : countsLE a b) (h2 : countsLE b c) :
    countsLE a c := by
  obtain ⟨x1, x2, x3, x4, x5, x6⟩ := h1
  obtain ⟨y1, y2, y3, y4, y5, y6⟩ := h2
  exact ⟨x1.trans y1, x2.trans y2, x3.trans y3,
    fun k => (x4 k).trans (y4 k), fun k => (x5 k).trans (y5 k),
    fun k => (x6 k).trans (y6 k)⟩

theorem countsLE_bump (a : Counts) (cat : VehicleCategory) (mi : Bool) :
    countsLE a (bumpCounts a cat mi) := by
  refine ⟨Nat.le_succ _, ?_, ?_, ?_, ?_, ?_⟩
  · cases mi <;> simp [bumpCounts]
  · cases mi <;> simp [bumpCounts]
  · intro k
    by_cases hk : k = cat <;> simp [bumpCounts, hk]
  · intro k
    cases mi <;> by_cases hk : k = cat <;> simp [bumpCounts, hk]
  · intro k
    cases mi <;> by_cases hk : k = cat <;> simp [bumpCounts, hk]

theorem counts_mono_obs (c : LineCrossingCounter) (obs : TrackObservation) :
    countsLE c.counts (c.updateObs obs).counts := by
  rcases updateObs_dichotomy c obs with ⟨h1, -⟩ | ⟨-, -, cat, mi, h1⟩ <;> rw [h1]
  · exact countsLE_refl _
  · exact countsLE_bump _ cat mi

theorem counts_mono (c : LineCrossingCounter) (l : List TrackObservation) :
    countsLE c.counts ((c.update l).counts) := by
  induction l generalizing c with
  | nil => exact countsLE_refl _
  | cons o tl ih =>
      rw [update_cons]
      exact countsLE_trans (counts_mono_obs c o) (ih _)

/-- The structural invariant of the aggregate: totals split into the two
directions, the counted list is duplicate-free and as long as `total`. -/
def CountsInv (c : LineCrossingCounter) : Prop :=
  c.counts.total = c.counts.total_in + c.counts.total_out ∧
  (∀ cat, c.counts.by_category cat =
    c.counts.by_category_in cat + c.counts.by_category_out cat) ∧
  c.counted_track_ids.length = c.counts.total ∧
  c.counted_track_ids.Nodup

theorem countsInv_init (line : Line) (inv : Bool) (m : ℚ) :
    CountsInv (LineCrossingCounter.init line inv m) := by
  refine ⟨rfl, fun cat => rfl, rfl, List.nodup_nil⟩

theorem countsInv_obs (c : LineCrossingCounter) (obs : TrackObservation)
    (h : CountsInv c) : CountsInv (c.updateObs obs) := by
  obtain ⟨h1, h2, h3, h4⟩ := h
  rcases updateObs_dichotomy c obs with ⟨e1, e2⟩ | ⟨hmem, e2, cat, mi, e1⟩ <;>
    rw [CountsInv, e1, e2]
  · exact ⟨h1, h2, h3, h4⟩
  · refine ⟨?_, ?_, ?_, ?_⟩
    · cases mi <;> simp [bumpCounts] <;> omega
    · intro k
      have hk2 := h2 k
      rcases eq_or_ne k cat with hk | hk
      · subst hk
        cases mi <;> simp [bumpCounts] <;> omega
      · cases mi <;> simp [bumpCounts, hk] <;> omega
    · simp [bumpCounts, h3]
    · simp [List.nodup_append, h4, hmem]

theorem countsInv_update (c : LineCrossingCounter) (l : List TrackObservation)
    (h : CountsInv c) : CountsInv (c.update l) := by
  induction l generalizing c with
  | nil => exact h
  | cons o tl ih =>
      rw [update_cons]
      exact ih _ (countsInv_obs c o h)

/-- Every loop-body step lands in one of three shapes: vote only (margin),
vote plus side write, or vote plus side write plus count. -/
theorem updateObs_shape (c : LineCrossingCounter) (obs : TrackObservation) :
    (c.getCurrentState obs.center_xy.2 = none ∧
      c.updateObs obs = voteState c obs) ∨
    (∃ b, c.getCurrentState obs.center_xy.2 = some b ∧
      (c.updateObs obs = sideUpd (voteState c obs) obs.track_id b ∨
        ∃ cat mi, c.updateObs obs
          = applyCount (sideUpd (voteState c obs) obs.track_id b)
              obs.track_id cat mi)) := by
  cases hst : c.getCurrentState obs.center_xy.2 with
  | none => exact Or.inl ⟨rfl, updateObs_margin c obs hst⟩
  | some b =>
      refine Or.inr ⟨b, rfl, ?_⟩
      cases hpv : dictGet obs.track_id c.is_above_by_track with
      | none => exact Or.inl (updateObs_first c obs b hst hpv)
      | some p =>
          by_cases hpb : p = b
          · subst hpb
            exact Or.inl (updateObs_same c obs p hst hpv)
          · by_cases hmem : obs.track_id ∈ c.counted_track_ids
            · exact Or.inl (updateObs_counted c obs p b hst hpv hpb hmem)
            · cases hbc : (voteState c obs).bestCategory obs.track_id with
              | none => exact Or.inl (updateObs_novote c obs p b hst hpv hpb hmem hbc)
              | some cat =>
                  exact Or.inr ⟨cat, _, updateObs_cross c obs p b cat hst hpv hpb hmem hbc⟩

theorem updateObs_line (c : LineCrossingCounter) (obs : TrackObservation) :
    (c.updateObs obs).line = c.line := by
  rcases updateObs_shape c obs with ⟨-, h⟩ | ⟨b, -, h | ⟨cat, mi, h⟩⟩ <;> rw [h] <;>
    exact voteCategory_line c obs.track_id obs.coco_class_name

theorem updateObs_margin_px (c : LineCrossingCounter) (obs : TrackObservation) :
    (c.updateObs obs).margin_px = c.margin_px := by
  rcases updateObs_shape c obs with ⟨-, h⟩ | ⟨b, -, h | ⟨cat, mi, h⟩⟩ <;> rw [h] <;>
    exact voteCategory_margin c obs.track_id obs.coco_class_name

theorem updateObs_invert (c : LineCrossingCounter) (obs : TrackObservation) :
    (c.updateObs obs).invert_directions = c.invert_directions := by
  rcases updateObs_shape c obs with ⟨-, h⟩ | ⟨b, -, h | ⟨cat, mi, h⟩⟩ <;> rw [h] <;>
    exact voteCategory_invert c obs.track_id obs.coco_class_name

theorem getCurrentState_updateObs (c : LineCrossingCounter)
    (obs : TrackObservation) (y : ℚ) :
    (c.updateObs obs).getCurrentState y = c.getCurrentState y := by
  unfold LineCrossingCounter.getCurrentState
  rw [updateObs_line, updateObs_margin_px]

/-- Outside the margin, the loop body writes the freshly classified side
into the side map, unconditionally. -/
theorem updateObs_side_of_some (c : LineCrossingCounter) (obs : TrackObservation)
    (b : Bool) (h : c.getCurrentState obs.center_xy.2 = some b) :
    (c.updateObs obs).is_above_by_track
      = dictSet obs.track_id b c.is_above_by_track := by
  rcases updateObs_shape c obs with ⟨hn, -⟩ | ⟨b', hb', hcase⟩
  · rw [h] at hn
    exact Option.noConfusion hn
  · rw [h] at hb'
    cases Option.some.inj hb'
    rcases hcase with he | ⟨cat, mi, he⟩ <;> rw [he] <;>
      · show dictSet obs.track_id b (voteState c obs).is_above_by_track = _
        rw [side_voteState]

/-- Inside the margin, the loop body leaves the side map unchanged. -/
theorem updateObs_side_of_none (c : LineCrossingCounter) (obs : TrackObservation)
    (h : c.getCurrentState obs.center_xy.2 = none) :
    (c.updateObs obs).is_above_by_track = c.is_above_by_track := by
  rw [updateObs_margin c obs h]
  exact side_voteState c obs

/-- `total` can only change on a step whose track had a recorded side that
differs from the freshly classified side. -/
theorem updateObs_total_change (c : LineCrossingCounter) (obs : TrackObservation)
    (h : (c.updateObs obs).counts.total ≠ c.counts.total) :
    ∃ p b, dictGet obs.track_id c.is_above_by_track = some p ∧
      c.getCurrentState obs.center_xy.2 = some b ∧ p ≠ b := by
  cases hst : c.getCurrentState obs.center_xy.2 with
  | none =>
      rw [updateObs_margin c obs hst, counts_voteState] at h
      exact absurd rfl h
  | some b =>
      cases hpv : dictGet obs.track_id c.is_above_by_track with
      | none =>
          rw [updateObs_first c obs b hst hpv, counts_sideUpd, counts_voteState] at h
          exact absurd rfl h
      | some p =>
          by_cases hpb : p = b
          · subst hpb
            rw [updateObs_same c obs p hst hpv, counts_sideUpd, counts_voteState] at h
            exact absurd rfl h
          · exact ⟨p, b, rfl, rfl, hpb⟩

/-- A run of in-margin repeats of one observation never changes counts. -/
theorem update_replicate_margin (obs : TrackObservation) (n : Nat) :
    ∀ c : LineCrossingCounter, c.getCurrentState obs.center_xy.2 = none →
      (c.update (List.replicate n obs)).counts = c.counts := by
  induction n with
  | zero => intro c h; rfl
  | succ n ih =>
      intro c h
      rw [List.replicate_succ, update_cons]
      have h2 : (c.updateObs obs).getCurrentState obs.center_xy.2 = none := by
        rw [getCurrentState_updateObs]; exact h
      rw [ih _ h2, updateObs_margin c obs h, counts_voteState]

/-- A run of repeats of one observation whose classified side already is
the recorded side never changes counts. -/
theorem update_replicate_same (obs : TrackObservation) (b : Bool) (n : Nat) :
    ∀ c : LineCrossingCounter,
      dictGet obs.track_id c.is_above_by_track = some b →
      c.getCurrentState obs.center_xy.2 = some b →
      (c.update (List.replicate n obs)).counts = c.counts := by
  induction n with
  | zero => intro c h1 h2; rfl
  | succ n ih =>
      intro c h1 h2
      rw [List.replicate_succ, update_cons]
      have h1' : dictGet obs.track_id (c.updateObs obs).is_above_by_track = some b := by
        rw [updateObs_side_of_some c obs b h2, dictGet_dictSet_self]
      have h2' : (c.updateObs obs).getCurrentState obs.center_xy.2 = some b := by
        rw [getCurrentState_updateObs]; exact h2
      rw [ih _ h1' h2', updateObs_same c obs b h2 h1, counts_sideUpd, counts_voteState]

/-- A constant-position run on a track with no recorded side never
increases `total` (first classified sighting only records the side). -/
theorem update_replicate_fresh (c : LineCrossingCounter) (obs : TrackObservation)
    (n : Nat) (hp : dictGet obs.track_id c.is_above_by_track = none) :
    (c.update (List.replicate n obs)).counts.total = c.counts.total := by
  cases hst : c.getCurrentState obs.center_xy.2 with
  | none => rw [update_replicate_margin obs n c hst]
  | some b =>
      cases n with
      | zero => rfl
      | succ n =>
          rw [List.replicate_succ, update_cons]
          have h1' : dictGet obs.track_id (c.updateObs obs).is_above_by_track = some b := by
            rw [updateObs_side_of_some c obs b hst, dictGet_dictSet_self]
          have h2' : (c.updateObs obs).getCurrentState obs.center_xy.2 = some b := by
            rw [getCurrentState_updateObs]; exact hst
          rw [update_replicate_same obs b n _ h1' h2',
            updateObs_first c obs b hst hp, counts_sideUpd, counts_voteState]

/-! ### Claim theorems -/

/-- C1: once a track identity is in the counted set, no subsequent
observation carrying that identity changes any counter (the whole
`Counts` record is unchanged by such a step, after any interleaved
history), and the counted set never loses the member. -/
theorem C1_counted_once (c : LineCrossingCounter) (tid : Nat)
    (h : tid ∈ c.counted_track_ids) :
    (∀ obss : List TrackObservation, ∀ obs : TrackObservation,
      obs.track_id = tid →
        ((c.update obss).updateObs obs).counts = (c.update obss).counts ∧
        ((c.update obss).updateObs obs).counted_track_ids
          = (c.update obss).counted_track_ids) ∧
    (∀ obss : List TrackObservation, tid ∈ (c.update obss).counted_track_ids) := by
  constructor
  · intro obss obs hobs
    exact updateObs_frozen _ obs (hobs ▸ counted_mono c obss tid h)
  · intro obss
    exact counted_mono c obss tid h

/-- A concrete counter state in which track 5 has been counted (it crossed
from y = 5 to y = 15 over the line y = 10). -/
def exampleCountedState : LineCrossingCounter :=
  (LineCrossingCounter.init ⟨10⟩ false 0).update
    [⟨5, (0, 5), "car", true⟩, ⟨5, (0, 15), "car", true⟩]

/-- Witness for C1 at the concrete state `exampleCountedState`. -/
theorem C1_counted_once_witness :
    5 ∈ exampleCountedState.counted_track_ids ∧
    ((exampleCountedState.update []).updateObs ⟨5, (0, 5), "truck", true⟩).counts
      = (exampleCountedState.update []).counts := by
  have h : 5 ∈ exampleCountedState.counted_track_ids := by
    norm_num [exampleCountedState, LineCrossingCounter.update,
      LineCrossingCounter.updateObs, LineCrossingCounter.voteCategory,
      LineCrossingCounter.getCurrentState, LineCrossingCounter.bestCategory,
      LineCrossingCounter.init, COCO_CLASS_TO_CATEGORY, dictGet, dictSet, maxVote]
  exact ⟨h, ((C1_counted_once exampleCountedState 5 h).1 []
    ⟨5, (0, 5), "truck", true⟩ rfl).1⟩

/-- C2: after any update history from a fresh counter, `total` splits into
the directional totals, each per-category count splits into its
directional parts, the counted set (duplicate-free) has size `total`, and
every counter is monotonically non-decreasing under further updates (all
counters live in `ℕ`, hence are non-negative). -/
theorem C2_counts_invariants (line : Line) (inv : Bool) (m : ℚ)
    (obss more : List TrackObservation) :
    ((LineCrossingCounter.init line inv m).update obss).counts.total
        = ((LineCrossingCounter.init line inv m).update obss).counts.total_in
          + ((LineCrossingCounter.init line inv m).update obss).counts.total_out ∧
    (∀ cat, ((LineCrossingCounter.init line inv m).update obss).counts.by_category cat
        = ((LineCrossingCounter.init line inv m).update obss).counts.by_category_in cat
          + ((LineCrossingCounter.init line inv m).update obss).counts.by_category_out cat) ∧
    ((LineCrossingCounter.init line inv m).update obss).counted_track_ids.length
        = ((LineCrossingCounter.init line inv m).update obss).counts.total ∧
    ((LineCrossingCounter.init line inv m).update obss).counted_track_ids.Nodup ∧
    countsLE ((LineCrossingCounter.init line inv m).update obss).counts
      ((((LineCrossingCounter.init line inv m).update obss).update more).counts) := by
  obtain ⟨h1, h2, h3, h4⟩ := countsInv_update _ obss (countsInv_init line inv m)
  exact ⟨h1, h2, h3, h4, counts_mono _ more⟩

/-- C3: side classification is `above` exactly below the margin band and
`below` exactly above it; an in-margin observation skips all processing
(side map, counts and counted set unchanged); outside the margin the
recorded side is overwritten unconditionally; `total` changes only when a
recorded side existed and differs from the new one; and a first classified
sighting or a constant-position run never increases `total`. -/
theorem C3_side_classification (c : LineCrossingCounter) (obs : TrackObservation)
    (n : Nat) (hm : 0 ≤ c.margin_px) :
    (c.getCurrentState obs.center_xy.2 = some true ↔
      obs.center_xy.2 < c.line.y_px - c.margin_px) ∧
    (c.getCurrentState obs.center_xy.2 = some false ↔
      obs.center_xy.2 > c.line.y_px + c.margin_px) ∧
    (c.getCurrentState obs.center_xy.2 = none →
      (c.updateObs obs).is_above_by_track = c.is_above_by_track ∧
      (c.updateObs obs).counts = c.counts ∧
      (c.updateObs obs).counted_track_ids = c.counted_track_ids) ∧
    (∀ b, c.getCurrentState obs.center_xy.2 = some b →
      dictGet obs.track_id (c.updateObs obs).is_above_by_track = some b) ∧
    ((c.updateObs obs).counts.total ≠ c.counts.total →
      ∃ p b, dictGet obs.track_id c.is_above_by_track = some p ∧
        c.getCurrentState obs.center_xy.2 = some b ∧ p ≠ b) ∧
    (dictGet obs.track_id c.is_above_by_track = none →
      (c.update (List.replicate n obs)).counts.total = c.counts.total) := by
  refine ⟨?_, ?_, ?_, ?_, updateObs_total_change c obs,
    update_replicate_fresh c obs n⟩
  · unfold LineCrossingCounter.getCurrentState
    constructor
    · intro h
      by_cases h1 : obs.center_xy.2 < c.line.y_px - c.margin_px
      · exact h1
      · rw [if_neg h1] at h
        by_cases h2 : obs.center_xy.2 > c.line.y_px + c.margin_px
        · rw [if_pos h2] at h
          exact absurd (Option.some.inj h) (by simp)
        · rw [if_neg h2] at h
          exact Option.noConfusion h
    · intro h1
      rw [if_pos h1]
  · unfold LineCrossingCounter.getCurrentState
    constructor
    · intro h
      by_cases h1 : obs.center_xy.2 < c.line.y_px - c.margin_px
      · rw [if_pos h1] at h
        exact absurd (Option.some.inj h) (by simp)
      · rw [if_neg h1] at h
        by_cases h2 : obs.center_xy.2 > c.line.y_px + c.margin_px
        · exact h2
        · rw [if_neg h2] at h
          exact Option.noConfusion h
    · intro h2
      have h1 : ¬ obs.center_xy.2 < c.line.y_px - c.margin_px := by
        push_neg
        have : c.line.y_px - c.margin_px ≤ c.line.y_px + c.margin_px := by
          linarith
        linarith
      rw [if_neg h1, if_pos h2]
  · intro h
    refine ⟨updateObs_side_of_none c obs h, ?_, ?_⟩ <;>
      rw [updateObs_margin c obs h]
    · exact counts_voteState c obs
    · exact counted_voteState c obs
  · intro b h
    rw [updateObs_side_of_some c obs b h, dictGet_dictSet_self]

/-- Witness for C3 with line y = 10, margin 2 and an observation at
y = 21/2 = 10.5 (inside the margin band). -/
theorem C3_side_classification_witness :
    0 ≤ (LineCrossingCounter.init ⟨10⟩ false 2).margin_px ∧
    ((LineCrossingCounter.init ⟨10⟩ false 2).getCurrentState
        (⟨1, (0, 21/2), "car", true⟩ : TrackObservation).center_xy.2 = some true ↔
      (⟨1, (0, 21/2), "car", true⟩ : TrackObservation).center_xy.2
        < (LineCrossingCounter.init ⟨10⟩ false 2).line.y_px
          - (LineCrossingCounter.init ⟨10⟩ false 2).margin_px) :=
  have h : 0 ≤ (LineCrossingCounter.init ⟨10⟩ false 2).margin_px := by
    norm_num [LineCrossingCounter.init]
  ⟨h, (C3_side_classification (LineCrossingCounter.init ⟨10⟩ false 2)
    ⟨1, (0, 21/2), "car", true⟩ 3 h).1⟩

/-- Recursive maximum of the vote counts of a vote list. -/
def maxcount : List (VehicleCategory × Nat) → Nat
  | [] => 0
  | p :: t => Nat.max p.2 (maxcount t)

/-- Modelled on the spec's wording, for comparison with the code's
`_best_category`: the argmax of the votes, ties broken in favor of the
earliest-inserted category attaining the maximum count. -/
def firstArgmaxSpec (l : List (VehicleCategory × Nat)) : Option VehicleCategory :=
  (l.find? (fun p => p.2 == maxcount l)).map Prod.fst

/-- The Python `max` fold returns exactly the first pair attaining the
maximum count. -/
theorem maxVote_spec (t : List (VehicleCategory × Nat)) :
    ∀ (k : VehicleCategory) (v : Nat),
      ((k, v) :: t).find? (fun p => p.2 == maxcount ((k, v) :: t))
        = some (maxVote k v t, maxcount ((k, v) :: t)) := by
  induction t with
  | nil =>
      intro k v
      simp [maxcount, maxVote]
  | cons q t' ih =>
      intro k v
      obtain ⟨k', v'⟩ := q
      by_cases hvv : v' > v
      · have hle : v ≤ Nat.max v' (maxcount t') :=
          le_trans (Nat.le_of_lt hvv) (Nat.le_max_left _ _)
        have hM : maxcount ((k, v) :: (k', v') :: t')
            = maxcount ((k', v') :: t') := by
          simp only [maxcount]
          exact Nat.max_eq_right hle
        have hvM : ¬ ((k, v).2 == maxcount ((k, v) :: (k', v') :: t')) = true := by
          simp only [beq_iff_eq, hM]
          simp only [maxcount]
          exact Nat.ne_of_lt (lt_of_lt_of_le hvv (Nat.le_max_left v' (maxcount t')))
        rw [show maxVote k v ((k', v') :: t') = maxVote k' v' t' by
          simp [maxVote, hvv]]
        rw [show List.find? (fun p => p.2 == maxcount ((k, v) :: (k', v') :: t'))
              ((k, v) :: (k', v') :: t')
            = List.find? (fun p => p.2 == maxcount ((k, v) :: (k', v') :: t'))
              ((k', v') :: t') from List.find?_cons_of_neg _ hvM]
        rw [hM]
        exact ih k' v'
      · have hvle : v' ≤ v := Nat.le_of_not_lt hvv
        have hM : maxcount ((k, v) :: (k', v') :: t')
            = maxcount ((k, v) :: t') := by
          simp only [maxcount]
          apply le_antisymm
          · exact Nat.max_le.mpr ⟨Nat.le_max_left _ _,
              Nat.max_le.mpr ⟨le_trans hvle (Nat.le_max_left v (maxcount t')),
                Nat.le_max_right v (maxcount t')⟩⟩
          · exact Nat.max_le.mpr ⟨Nat.le_max_left _ _,
              le_trans (Nat.le_max_right v' (maxcount t'))
                (Nat.le_max_right v _)⟩
        rw [show maxVote k v ((k', v') :: t') = maxVote k v t' by
          simp [maxVote, hvv]]
        have key := ih k v
        rw [hM]
        by_cases hv : v = maxcount ((k, v) :: t')
        · have htrue : ((k, v).2 == maxcount ((k, v) :: t')) = true := by
            simp only [beq_iff_eq]
            exact hv
          rw [show List.find? (fun p => p.2 == maxcount ((k, v) :: t'))
                ((k, v) :: (k', v') :: t')
              = some (k, v) from List.find?_cons_of_pos _ htrue]
          rw [show List.find? (fun p => p.2 == maxcount ((k, v) :: t'))
                ((k, v) :: t')
              = some (k, v) from List.find?_cons_of_pos _ htrue] at key
          exact key
        · have hneg1 : ¬ ((k, v).2 == maxcount ((k, v) :: t')) = true := by
            simp only [beq_iff_eq]
            exact hv
          have hvle2 : v ≤ maxcount ((k, v) :: t') := by
            simp only [maxcount]
            exact Nat.le_max_left _ _
          have hneg2 : ¬ ((k', v').2 == maxcount ((k, v) :: t')) = true := by
            simp only [beq_iff_eq]
            intro hE
            exact hv (by omega)
          rw [show List.find? (fun p => p.2 == maxcount ((k, v) :: t'))
                ((k, v) :: (k', v') :: t')
              = List.find? (fun p => p.2 == maxcount ((k, v) :: t'))
                ((k', v') :: t') from List.find?_cons_of_neg _ hneg1]
          rw [show List.find? (fun p => p.2 == maxcount ((k, v) :: t'))
                ((k', v') :: t')
              = List.find? (fun p => p.2 == maxcount ((k, v) :: t'))
                t' from List.find?_cons_of_neg _ hneg2]
          rw [show List.find? (fun p => p.2 == maxcount ((k, v) :: t'))
                ((k, v) :: t')
              = List.find? (fun p => p.2 == maxcount ((k, v) :: t'))
                t' from List.find?_cons_of_neg _ hneg1] at key
          exact key

/-- `_best_category` agrees with the spec's first-inserted-argmax rule. -/
theorem bestCategory_eq_firstArgmax (c : LineCrossingCounter) (tid : Nat) :
    c.bestCategory tid = (dictGet tid c.category_votes).bind firstArgmaxSpec := by
  unfold LineCrossingCounter.bestCategory
  cases dictGet tid c.category_votes with
  | none => rfl
  | some vl =>
      cases vl with
      | nil => rfl
      | cons p t =>
          obtain ⟨k, v⟩ := p
          simp [Option.bind, firstArgmaxSpec, maxVote_spec t k v]

/-- A step whose track resolves to no category (no votes) leaves counts
and the counted set untouched. -/
theorem updateObs_no_votes (c : LineCrossingCounter) (obs : TrackObservation)
    (h : (voteState c obs).bestCategory obs.track_id = none) :
    (c.updateObs obs).counts = c.counts ∧
    (c.updateObs obs).counted_track_ids = c.counted_track_ids := by
  cases hst : c.getCurrentState obs.center_xy.2 with
  | none =>
      rw [updateObs_margin c obs hst]
      exact ⟨counts_voteState c obs, counted_voteState c obs⟩
  | some b =>
      cases hpv : dictGet obs.track_id c.is_above_by_track with
      | none =>
          rw [updateObs_first c obs b hst hpv, counts_sideUpd, counted_sideUpd]
          exact ⟨counts_voteState c obs, counted_voteState c obs⟩
      | some p =>
          by_cases hpb : p = b
          · subst hpb
            rw [updateObs_same c obs p hst hpv, counts_sideUpd, counted_sideUpd]
            exact ⟨counts_voteState c obs, counted_voteState c obs⟩
          · by_cases hmem : obs.track_id ∈ c.counted_track_ids
            · rw [updateObs_counted c obs p b hst hpv hpb hmem,
                counts_sideUpd, counted_sideUpd]
              exact ⟨counts_voteState c obs, counted_voteState c obs⟩
            · rw [updateObs_novote c obs p b hst hpv hpb hmem h,
                counts_sideUpd, counted_sideUpd]
              exact ⟨counts_voteState c obs, counted_voteState c obs⟩

/-- C4: the category of a counted crossing is the argmax of the track's
accumulated votes with ties broken by insertion order of the first-voted
category, and a track with no votes is neither counted nor added to the
counted set when it crosses (all cases return normally; the function is
total). -/
theorem C4_category_resolution (c : LineCrossingCounter) (tid : Nat)
    (obs : TrackObservation)
    (h : (voteState c obs).bestCategory obs.track_id = none) :
    c.bestCategory tid = (dictGet tid c.category_votes).bind firstArgmaxSpec ∧
    (c.updateObs obs).counts = c.counts ∧
    (c.updateObs obs).counted_track_ids = c.counted_track_ids := by
  obtain ⟨h1, h2⟩ := updateObs_no_votes c obs h
  exact ⟨bestCategory_eq_firstArgmax c tid, h1, h2⟩

/-- Witness for C4 at a fresh counter and a crossing observation with an
unmapped label (track 1 has no votes). -/
theorem C4_category_resolution_witness :
    (voteState (LineCrossingCounter.init ⟨10⟩ false 0)
        ⟨1, (0, 15), "person", true⟩).bestCategory 1 = none ∧
    ((LineCrossingCounter.init ⟨10⟩ false 0).updateObs
        ⟨1, (0, 15), "person", true⟩).counts
      = (LineCrossingCounter.init ⟨10⟩ false 0).counts :=
  have h : (voteState (LineCrossingCounter.init ⟨10⟩ false 0)
      ⟨1, (0, 15), "person", true⟩).bestCategory 1 = none := by
    norm_num [voteState, LineCrossingCounter.voteCategory,
      LineCrossingCounter.bestCategory, LineCrossingCounter.init,
      COCO_CLASS_TO_CATEGORY, dictGet]
  ⟨h, (C4_category_resolution (LineCrossingCounter.init ⟨10⟩ false 0) 1
    ⟨1, (0, 15), "person", true⟩ h).2.1⟩

/-! ### Direction inversion as a state symmetry -/

/-- Swap the two directional halves of the aggregate. -/
def flipCounts (cnt : Counts) : Counts :=
  { total := cnt.total
    by_category := cnt.by_category
    total_in := cnt.total_out
    total_out := cnt.total_in
    by_category_in := cnt.by_category_out
    by_category_out := cnt.by_category_in }

/-- Negate the inversion flag and swap the directional counters. -/
def flipState (c : LineCrossingCounter) : LineCrossingCounter :=
  { c with
    invert_directions := !c.invert_directions
    counts := flipCounts c.counts }

theorem voteState_flip (c : LineCrossingCounter) (obs : TrackObservation) :
    voteState (flipState c) obs = flipState (voteState c obs) := by
  unfold voteState LineCrossingCounter.voteCategory
  cases hco : COCO_CLASS_TO_CATEGORY obs.coco_class_name <;>
    simp only [hco] <;> rfl

theorem bumpCounts_flip (cnt : Counts) (cat : VehicleCategory) (mi : Bool) :
    bumpCounts (flipCounts cnt) cat (!mi) = flipCounts (bumpCounts cnt cat mi) := by
  cases mi <;> simp [bumpCounts, flipCounts]

theorem applyCount_flip (c : LineCrossingCounter) (t : Nat)
    (cat : VehicleCategory) (mi : Bool) :
    applyCount (flipState c) t cat (!mi) = flipState (applyCount c t cat mi) := by
  unfold applyCount
  rw [show (flipState c).counted_track_ids = c.counted_track_ids from rfl,
    show (flipState c).counts = flipCounts c.counts from rfl, bumpCounts_flip]
  rfl

theorem updateObs_flip (c : LineCrossingCounter) (obs : TrackObservation) :
    (flipState c).updateObs obs = flipState (c.updateObs obs) := by
  cases hst : c.getCurrentState obs.center_xy.2 with
  | none =>
      have hst' : (flipState c).getCurrentState obs.center_xy.2 = none := hst
      rw [updateObs_margin _ obs hst', updateObs_margin c obs hst, voteState_flip]
  | some b =>
      have hst' : (flipState c).getCurrentState obs.center_xy.2 = some b := hst
      cases hpv : dictGet obs.track_id c.is_above_by_track with
      | none =>
          have hpv' : dictGet obs.track_id (flipState c).is_above_by_track
              = none := hpv
          rw [updateObs_first _ obs b hst' hpv', updateObs_first c obs b hst hpv,
            voteState_flip]
          rfl
      | some p =>
          have hpv' : dictGet obs.track_id (flipState c).is_above_by_track
              = some p := hpv
          by_cases hpb : p = b
          · subst hpb
            rw [updateObs_same _ obs p hst' hpv', updateObs_same c obs p hst hpv,
              voteState_flip]
            rfl
          · by_cases hmem : obs.track_id ∈ c.counted_track_ids
            · have hmem' : obs.track_id ∈ (flipState c).counted_track_ids := hmem
              rw [updateObs_counted _ obs p b hst' hpv' hpb hmem',
                updateObs_counted c obs p b hst hpv hpb hmem, voteState_flip]
              rfl
            · have hmem' : obs.track_id ∉ (flipState c).counted_track_ids := hmem
              cases hbc : (voteState c obs).bestCategory obs.track_id with
              | none =>
                  have hbc' : (voteState (flipState c) obs).bestCategory
                      obs.track_id = none := by
                    rw [voteState_flip]
                    exact hbc
                  rw [updateObs_novote _ obs p b hst' hpv' hpb hmem' hbc',
                    updateObs_novote c obs p b hst hpv hpb hmem hbc,
                    voteState_flip]
                  rfl
              | some cat =>
                  have hbc' : (voteState (flipState c) obs).bestCategory
                      obs.track_id = some cat := by
                    rw [voteState_flip]
                    exact hbc
                  rw [updateObs_cross _ obs p b cat hst' hpv' hpb hmem' hbc',
                    updateObs_cross c obs p b cat hst hpv hpb hmem hbc,
                    voteState_flip]
                  rw [show (flipState c).invert_directions
                        = !c.invert_directions from rfl]
                  rw [show xor (p && !b) (!c.invert_directions)
                        = !(xor (p && !b) c.invert_directions) by
                    cases p <;> cases b <;> cases c.invert_directions <;> rfl]
                  rw [show sideUpd (flipState (voteState c obs)) obs.track_id b
                        = flipState (sideUpd (voteState c obs) obs.track_id b)
                      from rfl]
                  exact applyCount_flip _ obs.track_id cat _

theorem update_flip (c : LineCrossingCounter) (l : List TrackObservation) :
    (flipState c).update l = flipState (c.update l) := by
  induction l generalizing c with
  | nil => rfl
  | cons o tl ih =>
      rw [update_cons, update_cons, updateObs_flip]
      exact ih _

/-- C5: a counted above→below transition increments the "in" totals when
the inversion flag is unset and the "out" totals when it is set
(symmetrically for below→above); and for any input sequence the run with
the inverted flag has identical `total` and per-category counts and
swapped directional counters. -/
theorem C5_direction_inversion (c : LineCrossingCounter) (obs : TrackObservation)
    (p b : Bool) (cat : VehicleCategory)
    (h : c.getCurrentState obs.center_xy.2 = some b)
    (hp : dictGet obs.track_id c.is_above_by_track = some p) (hpb : p ≠ b)
    (hm : obs.track_id ∉ c.counted_track_ids)
    (hb : (voteState c obs).bestCategory obs.track_id = some cat)
    (line : Line) (inv : Bool) (mq : ℚ) (obss : List TrackObservation) :
    (p = true → b = false →
      (c.updateObs obs).counts.total_in
          = c.counts.total_in + (if c.invert_directions then 0 else 1) ∧
      (c.updateObs obs).counts.total_out
          = c.counts.total_out + (if c.invert_directions then 1 else 0) ∧
      (c.updateObs obs).counts.by_category_in cat
          = c.counts.by_category_in cat + (if c.invert_directions then 0 else 1) ∧
      (c.updateObs obs).counts.by_category_out cat
          = c.counts.by_category_out cat
            + (if c.invert_directions then 1 else 0)) ∧
    (p = false → b = true →
      (c.updateObs obs).counts.total_in
          = c.counts.total_in + (if c.invert_directions then 1 else 0) ∧
      (c.updateObs obs).counts.total_out
          = c.counts.total_out + (if c.invert_directions then 0 else 1) ∧
      (c.updateObs obs).counts.by_category_in cat
          = c.counts.by_category_in cat + (if c.invert_directions then 1 else 0) ∧
      (c.updateObs obs).counts.by_category_out cat
          = c.counts.by_category_out cat
            + (if c.invert_directions then 0 else 1)) ∧
    (((LineCrossingCounter.init line (!inv) mq).update obss).counts.total
        = ((LineCrossingCounter.init line inv mq).update obss).counts.total ∧
      ((LineCrossingCounter.init line (!inv) mq).update obss).counts.by_category
        = ((LineCrossingCounter.init line inv mq).update obss).counts.by_category ∧
      ((LineCrossingCounter.init line (!inv) mq).update obss).counts.total_in
        = ((LineCrossingCounter.init line inv mq).update obss).counts.total_out ∧
      ((LineCrossingCounter.init line (!inv) mq).update obss).counts.total_out
        = ((LineCrossingCounter.init line inv mq).update obss).counts.total_in ∧
      ((LineCrossingCounter.init line (!inv) mq).update obss).counts.by_category_in
        = ((LineCrossingCounter.init line inv mq).update obss).counts.by_category_out ∧
      ((LineCrossingCounter.init line (!inv) mq).update obss).counts.by_category_out
        = ((LineCrossingCounter.init line inv mq).update obss).counts.by_category_in) := by
  have e := updateObs_cross c obs p b cat h hp hpb hm hb
  have hrun : (LineCrossingCounter.init line (!inv) mq).update obss
      = flipState ((LineCrossingCounter.init line inv mq).update obss) := by
    rw [show LineCrossingCounter.init line (!inv) mq
          = flipState (LineCrossingCounter.init line inv mq) from rfl]
    exact update_flip _ obss
  refine ⟨?_, ?_, ?_⟩
  · intro hP hB
    subst hP
    subst hB
    rw [e, counts_applyCount, counts_sideUpd, counts_voteState]
    cases hI : c.invert_directions <;>
      simp [bumpCounts]
  · intro hP hB
    subst hP
    subst hB
    rw [e, counts_applyCount, counts_sideUpd, counts_voteState]
    cases hI : c.invert_directions <;>
      simp [bumpCounts]
  · rw [hrun]
    exact ⟨rfl, rfl, rfl, rfl, rfl, rfl⟩

/-- A concrete counter state in which track 3 is recorded above the line
with a single "bus" vote. -/
def exampleAboveState : LineCrossingCounter :=
  (LineCrossingCounter.init ⟨10⟩ false 0).updateObs ⟨3, (0, 5), "bus", true⟩

/-- Witness for C5 at `exampleAboveState` and a below-line observation. -/
theorem C5_direction_inversion_witness :
    exampleAboveState.getCurrentState
        (⟨3, (0, 15), "bus", true⟩ : TrackObservation).center_xy.2 = some false ∧
    dictGet 3 exampleAboveState.is_above_by_track = some true ∧
    (3 : Nat) ∉ exampleAboveState.counted_track_ids ∧
    (voteState exampleAboveState ⟨3, (0, 15), "bus", true⟩).bestCategory 3
      = some VehicleCategory.bus ∧
    (exampleAboveState.updateObs ⟨3, (0, 15), "bus", true⟩).counts.total_in
      = exampleAboveState.counts.total_in
        + (if exampleAboveState.invert_directions then 0 else 1) := by
  have h1 : exampleAboveState.getCurrentState
      (⟨3, (0, 15), "bus", true⟩ : TrackObservation).center_xy.2 = some false := by
    norm_num [exampleAboveState, LineCrossingCounter.updateObs,
      LineCrossingCounter.voteCategory, LineCrossingCounter.getCurrentState,
      LineCrossingCounter.init, COCO_CLASS_TO_CATEGORY, dictGet, dictSet]
  have h2 : dictGet 3 exampleAboveState.is_above_by_track = some true := by
    norm_num [exampleAboveState, LineCrossingCounter.updateObs,
      LineCrossingCounter.voteCategory, LineCrossingCounter.getCurrentState,
      LineCrossingCounter.init, COCO_CLASS_TO_CATEGORY, dictGet, dictSet]
  have h3 : (3 : Nat) ∉ exampleAboveState.counted_track_ids := by
    norm_num [exampleAboveState, LineCrossingCounter.updateObs,
      LineCrossingCounter.voteCategory, LineCrossingCounter.getCurrentState,
      LineCrossingCounter.init, COCO_CLASS_TO_CATEGORY, dictGet, dictSet]
  have h4 : (voteState exampleAboveState ⟨3, (0, 15), "bus", true⟩).bestCategory 3
      = some VehicleCategory.bus := by
    norm_num [exampleAboveState, voteState, LineCrossingCounter.updateObs,
      LineCrossingCounter.voteCategory, LineCrossingCounter.getCurrentState,
      LineCrossingCounter.bestCategory, LineCrossingCounter.init,
      COCO_CLASS_TO_CATEGORY, dictGet, dictSet, maxVote]
  exact ⟨h1, h2, h3, h4,
    ((C5_direction_inversion exampleAboveState ⟨3, (0, 15), "bus", true⟩
      true false .bus h1 h2 (by decide) h3 h4 ⟨10⟩ false 0 []).1 rfl rfl).1⟩

/-- The loop body changes the vote map only through the vote step. -/
theorem votes_updateObs (c : LineCrossingCounter) (obs : TrackObservation) :
    (c.updateObs obs).category_votes = (voteState c obs).category_votes := by
  rcases updateObs_shape c obs with ⟨-, h⟩ | ⟨b, -, h | ⟨cat, mi, h⟩⟩ <;>
    rw [h] <;> rfl

/-- A track with no recorded votes, none of whose observations ever
carries a mapped label, is never added to the counted set. -/
theorem never_counted_unmapped (tid : Nat) (obss : List TrackObservation) :
    ∀ c : LineCrossingCounter, tid ∉ c.counted_track_ids →
      dictGet tid c.category_votes = none →
      (∀ o ∈ obss, o.track_id = tid →
        COCO_CLASS_TO_CATEGORY o.coco_class_name = none) →
      tid ∉ (c.update obss).counted_track_ids := by
  induction obss with
  | nil =>
      intro c h1 h2 h3
      exact h1
  | cons o tl ih =>
      intro c h1 h2 h3
      rw [update_cons]
      have hvotes : dictGet tid (c.updateObs o).category_votes = none := by
        rw [votes_updateObs, voteState]
        cases hco : COCO_CLASS_TO_CATEGORY o.coco_class_name with
        | none =>
            rw [voteCategory_unmapped c _ _ hco]
            exact h2
        | some cat2 =>
            have ho : o.track_id ≠ tid := by
              intro he
              have hx := h3 o (List.mem_cons_self o tl) he
              rw [hco] at hx
              exact Option.noConfusion hx
            unfold LineCrossingCounter.voteCategory
            rw [hco]
            show dictGet tid (dictSet o.track_id _ c.category_votes) = none
            rw [dictGet_dictSet_ne _ _ _ _ (Ne.symm ho)]
            exact h2
      have hcnt : tid ∉ (c.updateObs o).counted_track_ids := by
        by_cases ho : o.track_id = tid
        · have hu := h3 o (List.mem_cons_self o tl) ho
          have hbv : (voteState c o).bestCategory o.track_id = none := by
            have hg : dictGet o.track_id (voteState c o).category_votes = none := by
              rw [voteState, voteCategory_unmapped c _ _ hu, ho]
              exact h2
            unfold LineCrossingCounter.bestCategory
            rw [hg]
          rw [(updateObs_no_votes c o hbv).2]
          exact h1
        · rcases updateObs_dichotomy c o with ⟨-, e⟩ | ⟨-, e, -⟩ <;> rw [e]
          · exact h1
          · intro hmem
            rcases List.mem_append.1 hmem with hx | hx
            · exact h1 hx
            · exact ho (List.mem_singleton.1 hx).symm
      exact ih _ hcnt hvotes (fun o' ho' => h3 o' (List.mem_cons_of_mem o ho'))

/-- C9 counterexample: an observation with an unmapped class label
("person") can very well get its track counted — here track 7 already has
a "car" vote, crosses the line exactly at the "person" observation, and
is counted there, against the claim's "its track is never counted". -/
theorem C9_unmapped_counterexample :
    COCO_CLASS_TO_CATEGORY "person" = none ∧
    ((LineCrossingCounter.init ⟨10⟩ false 0).update
        [⟨7, (0, 5), "car", true⟩]).counted_track_ids = [] ∧
    ((LineCrossingCounter.init ⟨10⟩ false 0).update
        [⟨7, (0, 5), "car", true⟩,
         ⟨7, (0, 15), "person", true⟩]).counted_track_ids = [7] ∧
    ((LineCrossingCounter.init ⟨10⟩ false 0).update
        [⟨7, (0, 5), "car", true⟩,
         ⟨7, (0, 15), "person", true⟩]).counts.total = 1 := by
  refine ⟨rfl, ?_, ?_, ?_⟩ <;>
    norm_num [LineCrossingCounter.update, LineCrossingCounter.updateObs,
      LineCrossingCounter.voteCategory, LineCrossingCounter.getCurrentState,
      LineCrossingCounter.bestCategory, LineCrossingCounter.init,
      show COCO_CLASS_TO_CATEGORY "car" = some VehicleCategory.car from rfl,
      show COCO_CLASS_TO_CATEGORY "person" = none from rfl,
      dictGet, dictSet, maxVote]

/-- C9 (amended): an unmapped-label observation contributes no vote; it
still updates the recorded side outside the margin; an in-margin
observation changes no side state and no counts; a vote-less crossing
track is not counted; and a track none of whose observations ever carries
a mapped label is never counted.  All of these are silent no-ops of the
total function `update`. -/
theorem C9_soft_failures (c : LineCrossingCounter) (obs : TrackObservation)
    (tid : Nat) (obss : List TrackObservation)
    (hun : COCO_CLASS_TO_CATEGORY obs.coco_class_name = none) :
    (c.updateObs obs).category_votes = c.category_votes ∧
    (∀ b, c.getCurrentState obs.center_xy.2 = some b →
      dictGet obs.track_id (c.updateObs obs).is_above_by_track = some b) ∧
    (c.getCurrentState obs.center_xy.2 = none →
      (c.updateObs obs).is_above_by_track = c.is_above_by_track ∧
      (c.updateObs obs).counts = c.counts) ∧
    ((voteState c obs).bestCategory obs.track_id = none →
      (c.updateObs obs).counts = c.counts ∧
      (c.updateObs obs).counted_track_ids = c.counted_track_ids) ∧
    (tid ∉ c.counted_track_ids →
      dictGet tid c.category_votes = none →
      (∀ o ∈ obss, o.track_id = tid →
        COCO_CLASS_TO_CATEGORY o.coco_class_name = none) →
      tid ∉ (c.update obss).counted_track_ids) := by
  refine ⟨?_, ?_, ?_, updateObs_no_votes c obs,
    fun h1 h2 h3 => never_counted_unmapped tid obss c h1 h2 h3⟩
  · rw [votes_updateObs, voteState, voteCategory_unmapped c _ _ hun]
  · intro b hb
    rw [updateObs_side_of_some c obs b hb, dictGet_dictSet_self]
  · intro hn
    refine ⟨updateObs_side_of_none c obs hn, ?_⟩
    rw [updateObs_margin c obs hn]
    exact counts_voteState c obs

/-- Witness for the amended C9 at a fresh counter and a "person"
observation. -/
theorem C9_soft_failures_witness :
    COCO_CLASS_TO_CATEGORY "person" = none ∧
    ((LineCrossingCounter.init ⟨10⟩ false 0).updateObs
        ⟨2, (0, 15), "person", true⟩).category_votes
      = (LineCrossingCounter.init ⟨10⟩ false 0).category_votes :=
  ⟨rfl, (C9_soft_failures (LineCrossingCounter.init ⟨10⟩ false 0)
    ⟨2, (0, 15), "person", true⟩ 2 [] rfl).1⟩

/-- The loop body never reads `is_confirmed`. -/
theorem updateObs_confirmed_irrelevant (c : LineCrossingCounter)
    (o o' : TrackObservation) (h1 : o.track_id = o'.track_id)
    (h2 : o.center_xy = o'.center_xy)
    (h3 : o.coco_class_name = o'.coco_class_name) :
    c.updateObs o = c.updateObs o' := by
  obtain ⟨t, xy, n, b⟩ := o
  obtain ⟨t', xy', n', b'⟩ := o'
  cases h1
  cases h2
  cases h3
  rfl

/-- C10: two observation sequences agreeing on everything except the
`is_confirmed` flags produce identical final states (counts, counted set,
side map, votes); and a run whose observations all have
`is_confirmed = false` does trigger a count. -/
theorem C10_is_confirmed_ignored (c : LineCrossingCounter)
    (obss obss' : List TrackObservation)
    (h : obss.map (fun o => (o.track_id, o.center_xy, o.coco_class_name))
        = obss'.map (fun o => (o.track_id, o.center_xy, o.coco_class_name))) :
    c.update obss = c.update obss' ∧
    ((LineCrossingCounter.init ⟨10⟩ false 0).update
        [⟨1, (0, 5), "car", false⟩, ⟨1, (0, 15), "car", false⟩]).counts.total
      = 1 := by
  constructor
  · induction obss generalizing c obss' with
    | nil =>
        cases obss' with
        | nil => rfl
        | cons o' tl' => exact absurd h (by simp)
    | cons o tl ih =>
        cases obss' with
        | nil => exact absurd h (by simp)
        | cons o' tl' =>
            simp only [List.map_cons, List.cons.injEq, Prod.mk.injEq] at h
            obtain ⟨⟨e1, e2, e3⟩, ht⟩ := h
            rw [update_cons, update_cons,
              updateObs_confirmed_irrelevant c o o' e1 e2 e3]
            exact ih _ _ ht
  · norm_num [LineCrossingCounter.update, LineCrossingCounter.updateObs,
      LineCrossingCounter.voteCategory, LineCrossingCounter.getCurrentState,
      LineCrossingCounter.bestCategory, LineCrossingCounter.init,
      COCO_CLASS_TO_CATEGORY, dictGet, dictSet, maxVote]

/-- Witness for C10: the same crossing run with `is_confirmed` flipped on
every observation gives the identical final state. -/
theorem C10_is_confirmed_ignored_witness :
    ([⟨1, (0, 5), "car", true⟩, ⟨1, (0, 15), "car", true⟩]
        : List TrackObservation).map
          (fun o => (o.track_id, o.center_xy, o.coco_class_name))
      = ([⟨1, (0, 5), "car", false⟩, ⟨1, (0, 15), "car", false⟩]
          : List TrackObservation).map
            (fun o => (o.track_id, o.center_xy, o.coco_class_name)) ∧
    (LineCrossingCounter.init ⟨10⟩ false 0).update
        [⟨1, (0, 5), "car", true⟩, ⟨1, (0, 15), "car", true⟩]
      = (LineCrossingCounter.init ⟨10⟩ false 0).update
          [⟨1, (0, 5), "car", false⟩, ⟨1, (0, 15), "car", false⟩] :=
  ⟨rfl, (C10_is_confirmed_ignored (LineCrossingCounter.init ⟨10⟩ false 0)
    [⟨1, (0, 5), "car", true⟩, ⟨1, (0, 15), "car", true⟩]
    [⟨1, (0, 5), "car", false⟩, ⟨1, (0, 15), "car", false⟩] rfl).1⟩

/-! ### Tracker lemmas -/

theorem nodup_snoc {α : Type} (l : List α) (a : α) (h1 : l.Nodup)
    (h2 : a ∉ l) : (l ++ [a]).Nodup := by
  simp [List.nodup_append, h1, h2]

theorem sorted_snoc (l : List Nat) (a : Nat) (h1 : List.Sorted (· < ·) l)
    (h2 : ∀ x ∈ l, x < a) : List.Sorted (· < ·) (l ++ [a]) := by
  show List.Pairwise _ _
  rw [List.pairwise_append]
  refine ⟨h1, List.pairwise_singleton _ _, fun x hx y hy => ?_⟩
  rcases List.mem_singleton.1 hy with rfl
  exact h2 x hx

theorem keys_dictSet_not_mem {κ α : Type} [DecidableEq κ] (k : κ) (v : α)
    (l : List (κ × α)) (h : k ∉ l.map Prod.fst) :
    (dictSet k v l).map Prod.fst = l.map Prod.fst ++ [k] := by
  induction l with
  | nil => rfl
  | cons p t ih =>
      have h1 : ¬ p.1 = k := fun he => h (by simp [he])
      have h2 : k ∉ t.map Prod.fst := fun hm => h (by simp [hm])
      simp only [dictSet, if_neg h1, List.map_cons, ih h2, List.cons_append]

theorem keys_map_inplace (l : List (Nat × Track)) (tid : Nat)
    (g : Nat × Track → Track) :
    (l.map (fun p => if p.1 = tid then (p.1, g p) else p)).map Prod.fst
      = l.map Prod.fst := by
  induction l with
  | nil => rfl
  | cons p t ih =>
      by_cases hp : p.1 = tid <;> simp [hp, ih]

theorem mem_unique_of_nodup_keys (l : List (Nat × Track))
    (h : (l.map Prod.fst).Nodup) (tid : Nat) (t t' : Track)
    (h1 : (tid, t) ∈ l) (h2 : (tid, t') ∈ l) : t = t' := by
  induction l with
  | nil => cases h1
  | cons p rest ih =>
      simp only [List.map_cons, List.nodup_cons] at h
      obtain ⟨hp, hrest⟩ := h
      rcases List.mem_cons.1 h1 with he1 | h1'
      · rcases List.mem_cons.1 h2 with he2 | h2'
        · rw [← he1] at he2
          exact (Prod.ext_iff.mp he2).2.symm
        · exfalso
          apply hp
          rw [← he1]
          show tid ∈ rest.map Prod.fst
          exact List.mem_map_of_mem Prod.fst h2'
      · rcases List.mem_cons.1 h2 with he2 | h2'
        · exfalso
          apply hp
          rw [← he2]
          show tid ∈ rest.map Prod.fst
          exact List.mem_map_of_mem Prod.fst h1'
        · exact ih hrest h1' h2'

/-- A successful greedy match returns either the incoming accumulator or a
live track that is not yet used. -/
theorem findBestAux_some (det : Detection) (used : List Nat) :
    ∀ (l : List (Nat × Track)) (btid : Option Nat) (bdsq : ℚ) (tid : Nat),
      (findBestAux det used l btid bdsq).1 = some tid →
      btid = some tid ∨ (tid ∈ l.map Prod.fst ∧ tid ∉ used) := by
  intro l
  induction l with
  | nil =>
      intro btid bdsq tid h
      exact Or.inl h
  | cons p rest ih =>
      intro btid bdsq tid h
      obtain ⟨ptid, ptrk⟩ := p
      simp only [findBestAux] at h
      by_cases h1 : ptid ∈ used
      · rw [if_pos h1] at h
        rcases ih _ _ _ h with h2 | h2
        · exact Or.inl h2
        · exact Or.inr ⟨by simp [h2.1], h2.2⟩
      · rw [if_neg h1] at h
        by_cases h2 : ptrk.class_name ≠ det.class_name
        · rw [if_pos h2] at h
          rcases ih _ _ _ h with h3 | h3
          · exact Or.inl h3
          · exact Or.inr ⟨by simp [h3.1], h3.2⟩
        · rw [if_neg h2] at h
          by_cases h3 : distSq ptrk.center_xy det.center_xy < bdsq
          · rw [if_pos h3] at h
            rcases ih _ _ _ h with h4 | h4
            · have : ptid = tid := Option.some.inj h4
              subst this
              exact Or.inr ⟨by simp, h1⟩
            · exact Or.inr ⟨by simp [h4.1], h4.2⟩
          · rw [if_neg h3] at h
            rcases ih _ _ _ h with h4 | h4
            · exact Or.inl h4
            · exact Or.inr ⟨by simp [h4.1], h4.2⟩

/-- Identity-allocation invariant of a tracker state: track keys are
duplicate-free and below the allocation counter. -/
def TrackerInv (s : SimpleTracker) : Prop :=
  (s.tracks.map Prod.fst).Nodup ∧
  ∀ tid ∈ s.tracks.map Prod.fst, tid < s.next_id

/-- Invariant of the per-detection fold inside `SimpleTracker.update`:
`n0` is the allocation counter at entry, `keys0` the live keys after
expiry. -/
def StepInv (n0 : Nat) (keys0 : List Nat)
    (acc : SimpleTracker × List (Nat × Detection) × List Nat) : Prop :=
  TrackerInv acc.1 ∧
  n0 ≤ acc.1.next_id ∧
  acc.2.2 = acc.2.1.map Prod.fst ∧
  (acc.2.1.map Prod.fst).Nodup ∧
  (∀ i ∈ acc.2.1.map Prod.fst, i ∈ keys0 ∨ (n0 ≤ i ∧ i < acc.1.next_id)) ∧
  (∀ k ∈ acc.1.tracks.map Prod.fst, k ∈ keys0 ∨ (n0 ≤ k ∧ k < acc.1.next_id)) ∧
  List.Sorted (· < ·) ((acc.2.1.map Prod.fst).filter
    (fun i => decide (n0 ≤ i))) ∧
  (∀ k ∈ acc.1.tracks.map Prod.fst, n0 ≤ k → k ∈ acc.2.2)

theorem newTrack_spec (frame_idx : Int) (n0 : Nat) (keys0 : List Nat)
    (hk0 : ∀ k ∈ keys0, k < n0) (s : SimpleTracker)
    (asg : List (Nat × Detection)) (used : List Nat) (det : Detection)
    (h : StepInv n0 keys0 (s, asg, used)) :
    StepInv n0 keys0 (SimpleTracker.newTrack frame_idx s asg used det) ∧
    (SimpleTracker.newTrack frame_idx s asg used det).2.1
      = asg ++ [(s.next_id, det)] := by
  obtain ⟨⟨hnd, hbound⟩, hn0, hused, hand, hasg, hkeys, hsort, hfresh⟩ := h
  dsimp only at hnd hbound hn0 hused hand hasg hkeys hsort hfresh
  have hnotkey : s.next_id ∉ s.tracks.map Prod.fst := by
    intro hmem
    exact absurd (hbound _ hmem) (lt_irrefl _)
  have hkeys' : (dictSet s.next_id
      { track_id := s.next_id, center_xy := det.center_xy,
        class_name := det.class_name, last_seen_frame := frame_idx }
      s.tracks).map Prod.fst = s.tracks.map Prod.fst ++ [s.next_id] :=
    keys_dictSet_not_mem _ _ _ hnotkey
  have hasg_lt : ∀ i ∈ asg.map Prod.fst, i < s.next_id := by
    intro i hi
    rcases hasg i hi with hx | hx
    · exact lt_of_lt_of_le (hk0 i hx) hn0
    · exact hx.2
  have hnot_in_asg : s.next_id ∉ asg.map Prod.fst := by
    intro hmem
    exact absurd (hasg_lt _ hmem) (lt_irrefl _)
  refine ⟨⟨⟨?_, ?_⟩, ?_, ?_, ?_, ?_, ?_, ?_, ?_⟩, rfl⟩
  · show ((dictSet s.next_id _ s.tracks).map Prod.fst).Nodup
    rw [hkeys']
    exact nodup_snoc _ _ hnd hnotkey
  · show ∀ tid ∈ (dictSet s.next_id _ s.tracks).map Prod.fst,
      tid < s.next_id + 1
    rw [hkeys']
    intro tid htid
    rcases List.mem_append.1 htid with hx | hx
    · exact lt_trans (hbound _ hx) (Nat.lt_succ_self _)
    · rcases List.mem_singleton.1 hx with rfl
      exact Nat.lt_succ_self _
  · exact le_trans hn0 (Nat.le_succ _)
  · show used ++ [s.next_id] = (asg ++ [(s.next_id, det)]).map Prod.fst
    rw [List.map_append, hused]
    rfl
  · show ((asg ++ [(s.next_id, det)]).map Prod.fst).Nodup
    rw [List.map_append]
    exact nodup_snoc _ _ hand hnot_in_asg
  · show ∀ i ∈ (asg ++ [(s.next_id, det)]).map Prod.fst,
      i ∈ keys0 ∨ (n0 ≤ i ∧ i < s.next_id + 1)
    rw [List.map_append]
    intro i hi
    rcases List.mem_append.1 hi with hx | hx
    · rcases hasg i hx with hy | hy
      · exact Or.inl hy
      · exact Or.inr ⟨hy.1, lt_trans hy.2 (Nat.lt_succ_self _)⟩
    · rcases List.mem_singleton.1 hx with rfl
      exact Or.inr ⟨hn0, Nat.lt_succ_self _⟩
  · show ∀ k ∈ (dictSet s.next_id _ s.tracks).map Prod.fst,
      k ∈ keys0 ∨ (n0 ≤ k ∧ k < s.next_id + 1)
    rw [hkeys']
    intro k hk
    rcases List.mem_append.1 hk with hx | hx
    · rcases hkeys k hx with hy | hy
      · exact Or.inl hy
      · exact Or.inr ⟨hy.1, lt_trans hy.2 (Nat.lt_succ_self _)⟩
    · rcases List.mem_singleton.1 hx with rfl
      exact Or.inr ⟨hn0, Nat.lt_succ_self _⟩
  · show List.Sorted (· < ·) (((asg ++ [(s.next_id, det)]).map Prod.fst).filter
      (fun i => decide (n0 ≤ i)))
    rw [List.map_append, List.filter_append]
    rw [show ([(s.next_id, det)].map Prod.fst).filter (fun i => decide (n0 ≤ i))
          = [s.next_id] by simp [hn0]]
    refine sorted_snoc _ _ hsort ?_
    intro x hx
    rcases List.mem_filter.1 hx with ⟨hx1, -⟩
    exact hasg_lt x hx1
  · show ∀ k ∈ (dictSet s.next_id _ s.tracks).map Prod.fst,
      n0 ≤ k → k ∈ used ++ [s.next_id]
    rw [hkeys']
    intro k hk hle
    rcases List.mem_append.1 hk with hx | hx
    · exact List.mem_append_left _ (hfresh k hx hle)
    · rcases List.mem_singleton.1 hx with rfl
      exact List.mem_append_right _ (List.mem_singleton.2 rfl)

theorem matched_spec (frame_idx : Int) (n0 : Nat) (keys0 : List Nat)
    (s : SimpleTracker) (asg : List (Nat × Detection)) (used : List Nat)
    (det : Detection) (tid : Nat) (h : StepInv n0 keys0 (s, asg, used))
    (hmem_keys : tid ∈ s.tracks.map Prod.fst) (hnot_used : tid ∉ used) :
    StepInv n0 keys0
      ({ s with tracks := s.tracks.map (fun p =>
          if p.1 = tid then
            (p.1, { p.2 with center_xy := det.center_xy,
                             last_seen_frame := frame_idx })
          else p) }, asg ++ [(tid, det)], used ++ [tid]) := by
  obtain ⟨⟨hnd, hbound⟩, hn0, hused, hand, hasg, hkeys, hsort, hfresh⟩ := h
  dsimp only at hnd hbound hn0 hused hand hasg hkeys hsort hfresh
  have hkeq : ((s.tracks.map (fun p =>
      if p.1 = tid then
        (p.1, { p.2 with center_xy := det.center_xy,
                         last_seen_frame := frame_idx })
      else p)).map Prod.fst) = s.tracks.map Prod.fst :=
    keys_map_inplace s.tracks tid _
  have hnot_in_asg : tid ∉ asg.map Prod.fst := by
    rw [← hused]
    exact hnot_used
  have hnotfresh : ¬ n0 ≤ tid := fun hle => hnot_used (hfresh tid hmem_keys hle)
  refine ⟨⟨?_, ?_⟩, hn0, ?_, ?_, ?_, ?_, ?_, ?_⟩
  · show ((s.tracks.map _).map Prod.fst).Nodup
    rw [hkeq]
    exact hnd
  · show ∀ k ∈ (s.tracks.map _).map Prod.fst, k < s.next_id
    rw [hkeq]
    exact hbound
  · show used ++ [tid] = (asg ++ [(tid, det)]).map Prod.fst
    rw [List.map_append, hused]
    rfl
  · show ((asg ++ [(tid, det)]).map Prod.fst).Nodup
    rw [List.map_append]
    exact nodup_snoc _ _ hand hnot_in_asg
  · show ∀ i ∈ (asg ++ [(tid, det)]).map Prod.fst,
      i ∈ keys0 ∨ (n0 ≤ i ∧ i < s.next_id)
    rw [List.map_append]
    intro i hi
    rcases List.mem_append.1 hi with hx | hx
    · exact hasg i hx
    · rcases List.mem_singleton.1 hx with rfl
      exact hkeys i hmem_keys
  · show ∀ k ∈ (s.tracks.map _).map Prod.fst,
      k ∈ keys0 ∨ (n0 ≤ k ∧ k < s.next_id)
    rw [hkeq]
    exact hkeys
  · show List.Sorted (· < ·) (((asg ++ [(tid, det)]).map Prod.fst).filter
      (fun i => decide (n0 ≤ i)))
    rw [List.map_append, List.filter_append]
    rw [show (([(tid, det)] : List (Nat × Detection)).map Prod.fst).filter
          (fun i => decide (n0 ≤ i)) = [] by simp [hnotfresh]]
    rw [List.append_nil]
    exact hsort
  · show ∀ k ∈ (s.tracks.map _).map Prod.fst, n0 ≤ k → k ∈ used ++ [tid]
    rw [hkeq]
    intro k hk hle
    exact List.mem_append_left _ (hfresh k hk hle)

theorem stepDet_spec (frame_idx : Int) (det : Detection) (n0 : Nat)
    (keys0 : List Nat) (hk0 : ∀ k ∈ keys0, k < n0)
    (s : SimpleTracker) (asg : List (Nat × Detection)) (used : List Nat)
    (h : StepInv n0 keys0 (s, asg, used)) :
    StepInv n0 keys0 (SimpleTracker.stepDet frame_idx (s, asg, used) det) ∧
    ∃ tid, (SimpleTracker.stepDet frame_idx (s, asg, used) det).2.1
      = asg ++ [(tid, det)] := by
  unfold SimpleTracker.stepDet
  dsimp only
  cases hbt : (findBestAux det used s.tracks none hugeDistSq).1 with
  | none =>
      obtain ⟨h1, h2⟩ := newTrack_spec frame_idx n0 keys0 hk0 s asg used det h
      exact ⟨h1, s.next_id, h2⟩
  | some tid =>
      dsimp only
      rcases findBestAux_some det used s.tracks none hugeDistSq tid hbt with
        habs | ⟨hmem_keys, hnot_used⟩
      · exact Option.noConfusion habs
      · by_cases hcond : 0 ≤ s.max_match_distance_px ∧
            (findBestAux det used s.tracks none hugeDistSq).2
              ≤ s.max_match_distance_px ^ 2
        · rw [if_pos hcond]
          exact ⟨matched_spec frame_idx n0 keys0 s asg used det tid h
            hmem_keys hnot_used, tid, rfl⟩
        · rw [if_neg hcond]
          obtain ⟨h1, h2⟩ := newTrack_spec frame_idx n0 keys0 hk0 s asg used det h
          exact ⟨h1, s.next_id, h2⟩

theorem stepDet_fold (frame_idx : Int) (n0 : Nat) (keys0 : List Nat)
    (hk0 : ∀ k ∈ keys0, k < n0) (dets : List Detection) :
    ∀ acc, StepInv n0 keys0 acc →
      StepInv n0 keys0 (dets.foldl (SimpleTracker.stepDet frame_idx) acc) ∧
      (dets.foldl (SimpleTracker.stepDet frame_idx) acc).2.1.map Prod.snd
        = acc.2.1.map Prod.snd ++ dets := by
  induction dets with
  | nil =>
      intro acc h
      exact ⟨h, by simp⟩
  | cons d rest ih =>
      intro acc h
      obtain ⟨s, asg, used⟩ := acc
      obtain ⟨h1, tid, h2⟩ := stepDet_spec frame_idx d n0 keys0 hk0 s asg used h
      rw [List.foldl_cons]
      obtain ⟨hA, hB⟩ := ih _ h1
      refine ⟨hA, ?_⟩
      rw [hB, h2]
      simp

/-- The expiry filter keeps keys duplicate-free and below the counter. -/
theorem stepInv_entry (s : SimpleTracker) (h : TrackerInv s) (frame_idx : Int) :
    StepInv s.next_id
      (((s.tracks.filter (fun p =>
          decide (frame_idx - p.2.last_seen_frame ≤ s.max_age_frames))).map
        Prod.fst))
      ({ s with tracks := s.tracks.filter (fun p =>
          decide (frame_idx - p.2.last_seen_frame ≤ s.max_age_frames)) },
        [], []) ∧
    ∀ k ∈ ((s.tracks.filter (fun p =>
        decide (frame_idx - p.2.last_seen_frame ≤ s.max_age_frames))).map
          Prod.fst), k < s.next_id := by
  obtain ⟨hnd, hbound⟩ := h
  have hsub : ((s.tracks.filter (fun p =>
      decide (frame_idx - p.2.last_seen_frame ≤ s.max_age_frames))).map
        Prod.fst).Sublist (s.tracks.map Prod.fst) :=
    (List.filter_sublist _).map _
  have hk0 : ∀ k ∈ ((s.tracks.filter (fun p =>
      decide (frame_idx - p.2.last_seen_frame ≤ s.max_age_frames))).map
        Prod.fst), k < s.next_id :=
    fun k hk => hbound k (hsub.subset hk)
  refine ⟨⟨⟨hnd.sublist hsub, hk0⟩, le_refl _, rfl, List.nodup_nil,
    ?_, ?_, ?_, ?_⟩, hk0⟩
  · intro i hi
    cases hi
  · intro k hk
    exact Or.inl hk
  · exact List.sorted_nil
  · intro k hk hle
    exact absurd (hk0 k hk) (not_lt.mpr hle)

theorem update_def (s : SimpleTracker) (dets : List Detection) (frame_idx : Int) :
    s.update dets frame_idx
      = ((dets.foldl (SimpleTracker.stepDet frame_idx)
          ({ s with tracks := s.tracks.filter (fun p =>
              decide (frame_idx - p.2.last_seen_frame ≤ s.max_age_frames)) },
            [], [])).1,
          (dets.foldl (SimpleTracker.stepDet frame_idx)
          ({ s with tracks := s.tracks.filter (fun p =>
              decide (frame_idx - p.2.last_seen_frame ≤ s.max_age_frames)) },
            [], [])).2.1) := rfl

/-- C6: every input detection appears exactly once, in order, in the
assignment list, each with exactly one identity; no identity repeats in
one call's output; an empty input yields an empty output while the expiry
filter still runs. -/
theorem C6_assignment_postcondition (s : SimpleTracker) (dets : List Detection)
    (frame_idx : Int) (h : TrackerInv s) :
    (s.update dets frame_idx).2.map Prod.snd = dets ∧
    ((s.update dets frame_idx).2.map Prod.fst).Nodup ∧
    (dets = [] → (s.update dets frame_idx).2 = [] ∧
      (s.update dets frame_idx).1.tracks = s.tracks.filter (fun p =>
        decide (frame_idx - p.2.last_seen_frame ≤ s.max_age_frames))) := by
  obtain ⟨hinv, hk0⟩ := stepInv_entry s h frame_idx
  obtain ⟨hfold, hsnd⟩ := stepDet_fold frame_idx s.next_id _ hk0 dets _ hinv
  obtain ⟨-, -, -, hand', -, -, -, -⟩ := hfold
  rw [update_def]
  refine ⟨?_, hand', ?_⟩
  · rw [hsnd]
    rfl
  · intro hd
    subst hd
    exact ⟨rfl, rfl⟩

/-- Witness for C6 on a fresh tracker and a single detection. -/
theorem C6_assignment_postcondition_witness :
    TrackerInv (SimpleTracker.init 30 60) ∧
    ((SimpleTracker.init 30 60).update
        [⟨(0, 0, 10, 10), (5, 5), "car", 9/10⟩] 1).2.map Prod.snd
      = [⟨(0, 0, 10, 10), (5, 5), "car", 9/10⟩] :=
  have h : TrackerInv (SimpleTracker.init 30 60) := by
    constructor
    · exact List.nodup_nil
    · intro tid htid
      cases htid
  ⟨h, (C6_assignment_postcondition (SimpleTracker.init 30 60)
    [⟨(0, 0, 10, 10), (5, 5), "car", 9/10⟩] 1 h).1⟩

/-- C7: a track strictly older than `max_age_frames` at the start of a
call is gone: its identity occurs neither among the surviving tracks nor
in the call's assignments; and the spec's occlusion example (created at
frame 1 at (5,5), missed at frame 2, matched at (7,5) at frame 3 with
`max_age_frames = 3`) returns the same identity 1. -/
theorem C7_expiry_and_rematch (s : SimpleTracker) (dets : List Detection)
    (frame_idx : Int) (h : TrackerInv s) (tid : Nat) (t : Track)
    (hmem : (tid, t) ∈ s.tracks)
    (hstale : frame_idx - t.last_seen_frame > s.max_age_frames) :
    (tid ∉ (s.update dets frame_idx).1.tracks.map Prod.fst ∧
      ∀ p ∈ (s.update dets frame_idx).2, p.1 ≠ tid) ∧
    ((((SimpleTracker.init 3 60).update
          [⟨(0, 0, 10, 10), (5, 5), "car", 9/10⟩] 1).1.update [] 2).1.update
        [⟨(2, 0, 12, 10), (7, 5), "car", 9/10⟩] 3).2.map Prod.fst = [1] := by
  obtain ⟨hinv, hk0⟩ := stepInv_entry s h frame_idx
  obtain ⟨hfold, -⟩ := stepDet_fold frame_idx s.next_id _ hk0 dets _ hinv
  obtain ⟨-, -, -, -, hasg', hkeys', -, -⟩ := hfold
  have htid_lt : tid < s.next_id := by
    apply h.2
    show tid ∈ s.tracks.map Prod.fst
    have := List.mem_map_of_mem Prod.fst hmem
    exact this
  have htid_not0 : tid ∉ ((s.tracks.filter (fun p =>
      decide (frame_idx - p.2.last_seen_frame ≤ s.max_age_frames))).map
        Prod.fst) := by
    intro hmem0
    obtain ⟨p, hp, hfst⟩ := List.mem_map.1 hmem0
    have hpf := List.mem_filter.1 hp
    have hple : frame_idx - p.2.last_seen_frame ≤ s.max_age_frames :=
      of_decide_eq_true hpf.2
    have hpeq : p = (tid, p.2) := by
      rw [← hfst]
    have hsame : p.2 = t := by
      apply mem_unique_of_nodup_keys s.tracks h.1 tid p.2 t
      · rw [← hpeq]
        exact hpf.1
      · exact hmem
    rw [hsame] at hple
    exact absurd hple (not_le.mpr hstale)
  constructor
  · constructor
    · rw [update_def]
      intro hmemf
      rcases hkeys' tid hmemf with hx | hx
      · exact htid_not0 hx
      · exact absurd htid_lt (not_lt.mpr hx.1)
    · rw [update_def]
      intro p hp he
      have hpm : p.1 ∈ (List.foldl (SimpleTracker.stepDet frame_idx)
          ({ s with tracks := s.tracks.filter (fun q =>
              decide (frame_idx - q.2.last_seen_frame ≤ s.max_age_frames)) },
            [], []) dets).2.1.map Prod.fst := List.mem_map_of_mem Prod.fst hp
      rw [he] at hpm
      rcases hasg' tid hpm with hx | hx
      · exact htid_not0 hx
      · exact absurd htid_lt (not_lt.mpr hx.1)
  · norm_num [SimpleTracker.update, SimpleTracker.stepDet,
      SimpleTracker.newTrack, findBestAux, distSq, hugeDistSq,
      SimpleTracker.init, dictSet]

/-- C8: track identities stay duplicate-free and below the allocation
counter, the counter never decreases, every assigned identity is either a
pre-existing track key or a fresh one in `[next_id, next_id')`, no
identity repeats in the output, and the fresh identities appear in
strictly increasing order. -/
theorem C8_identity_allocation (s : SimpleTracker) (dets : List Detection)
    (frame_idx : Int) (h : TrackerInv s) :
    TrackerInv (s.update dets frame_idx).1 ∧
    s.next_id ≤ (s.update dets frame_idx).1.next_id ∧
    (∀ p ∈ (s.update dets frame_idx).2,
      p.1 ∈ s.tracks.map Prod.fst ∨
        (s.next_id ≤ p.1 ∧ p.1 < (s.update dets frame_idx).1.next_id)) ∧
    ((s.update dets frame_idx).2.map Prod.fst).Nodup ∧
    List.Sorted (· < ·) (((s.update dets frame_idx).2.map Prod.fst).filter
      (fun i => decide (s.next_id ≤ i))) := by
  obtain ⟨hinv, hk0⟩ := stepInv_entry s h frame_idx
  obtain ⟨hfold, -⟩ := stepDet_fold frame_idx s.next_id _ hk0 dets _ hinv
  obtain ⟨hti, hn0', -, hand', hasg', -, hsort', -⟩ := hfold
  have hsubkeys : ∀ k, k ∈ ((s.tracks.filter (fun p =>
      decide (frame_idx - p.2.last_seen_frame ≤ s.max_age_frames))).map
        Prod.fst) → k ∈ s.tracks.map Prod.fst :=
    fun k hk => ((List.filter_sublist _).map Prod.fst).subset hk
  rw [update_def]
  refine ⟨hti, hn0', ?_, hand', hsort'⟩
  intro p hp
  have hpm := List.mem_map_of_mem Prod.fst hp
  rcases hasg' p.1 hpm with hx | hx
  · exact Or.inl (hsubkeys _ hx)
  · exact Or.inr hx

/-- The single live track of `exampleTrackerState`. -/
def exampleTrack : Track :=
  { track_id := 1
    center_xy := (5, 5)
    class_name := "car"
    last_seen_frame := 1 }

/-- A handcrafted tracker state with one live track, key 1, counter 2. -/
def exampleTrackerState : SimpleTracker :=
  { next_id := 2
    tracks := [(1, exampleTrack)]
    max_age_frames := 3
    max_match_distance_px := 60 }

/-- Witness for C7: the track of `exampleTrackerState` is stale at
frame 10 and disappears. -/
theorem C7_expiry_and_rematch_witness :
    TrackerInv exampleTrackerState ∧
    ((1 : Nat), exampleTrack) ∈ exampleTrackerState.tracks ∧
    ((10 : Int) - 1 > exampleTrackerState.max_age_frames) ∧
    1 ∉ ((exampleTrackerState.update [] 10).1.tracks.map Prod.fst) :=
  have h : TrackerInv exampleTrackerState := by
    constructor
    · simp [exampleTrackerState]
    · intro tid htid
      simp [exampleTrackerState] at htid
      simp [htid, exampleTrackerState]
  have hm : ((1 : Nat), exampleTrack) ∈ exampleTrackerState.tracks := by
    simp [exampleTrackerState]
  have hst : (10 : Int) - 1 > exampleTrackerState.max_age_frames := by
    simp [exampleTrackerState]
  ⟨h, hm, hst,
    (C7_expiry_and_rematch exampleTrackerState [] 10 h 1 _ hm hst).1.1⟩

/-- Witness for C8 at `exampleTrackerState` with one matching and one new
detection. -/
theorem C8_identity_allocation_witness :
    TrackerInv exampleTrackerState ∧
    exampleTrackerState.next_id
      ≤ ((exampleTrackerState.update
          [⟨(0, 0, 10, 10), (5, 5), "car", 9/10⟩] 2).1).next_id :=
  have h : TrackerInv exampleTrackerState := by
    constructor
    · simp [exampleTrackerState]
    · intro tid htid
      simp [exampleTrackerState] at htid
      simp [htid, exampleTrackerState]
  ⟨h, (C8_identity_allocation exampleTrackerState
    [⟨(0, 0, 10, 10), (5, 5), "car", 9/10⟩] 2 h).2.1⟩

end VC
